import Mathlib

/-! # NeoGeo ROM loader (`support/neogeo/loader.cpp`): a shallow embedding

Machine integers are natural numbers; where the source computes in
`uint32_t` the wrap-around is written out as `% 2 ^ 32`.  C strings are
lists of characters (one `Char` per byte, no terminator).
-/

namespace NeoGeo

/-! ## Tile converters (loader.cpp, lines 15-93) -/

/-- The `uint32_t` value of `~0x1F`. -/
def MASK_1F : Nat := 0xFFFFFFE0

/-- The `uint32_t` value of `~0x3F`. -/
def MASK_3F : Nat := 0xFFFFFFC0

/-- Source index read by `spr_convert` for output index `i` (line 39). -/
def spr_convert_idx (i : Nat) : Nat :=
  (i &&& MASK_1F) ||| ((i >>> 1) &&& 0xF) ||| (((i &&& 1) ^^^ 1) <<< 4)

/-- Source index read by `spr_convert_dbl` for output index `i` (line 67). -/
def spr_convert_dbl_idx (i : Nat) : Nat :=
  (i &&& MASK_3F) ||| ((i ^^^ 1) &&& 1) ||| ((i >>> 1) &&& 0x1E) ||| (((i &&& 2) ^^^ 2) <<< 4)

/-- Source index read by `fix_convert` for output index `i` (line 92). -/
def fix_convert_idx (i : Nat) : Nat :=
  (i &&& MASK_1F) ||| ((i >>> 2) &&& 7) ||| ((i &&& 1) <<< 3) ||| (((i &&& 2) <<< 3) ^^^ 0x10)

/-- The loop `for (i = 0; i < size; i++) buf_out[i] = buf_in[idx i]`:
the first `size` elements of the output buffer.  A read past the end of
`buf_in` (undefined in C) yields `0` here. -/
def convert_loop (idx : Nat → Nat) (buf_in : List Nat) (size : Nat) : List Nat :=
  (List.range size).map (fun i => buf_in.getD (idx i) 0)

/-- The function `spr_convert` over 16-bit words (lines 15-58). -/
def spr_convert (buf_in : List Nat) (size : Nat) : List Nat :=
  convert_loop spr_convert_idx buf_in size

/-- The function `spr_convert_dbl` over 16-bit words (lines 65-68). -/
def spr_convert_dbl (buf_in : List Nat) (size : Nat) : List Nat :=
  convert_loop spr_convert_dbl_idx buf_in size

/-- The function `fix_convert` over bytes (lines 70-93). -/
def fix_convert (buf_in : List Nat) (size : Nat) : List Nat :=
  convert_loop fix_convert_idx buf_in size

/-! ### Inverse index maps (specification side)

The source has no inverse converter; the specification speaks of
"inverting the index mapping".  These are the inverse bit shuffles. -/

/-- Inverse of `spr_convert_idx`: bits 0..3 move up by one, bit 4 is
complemented into bit 0. -/
def spr_convert_inverse_idx (j : Nat) : Nat :=
  (j &&& MASK_1F) ||| ((j &&& 0xF) <<< 1) ||| (((j >>> 4) &&& 1) ^^^ 1)

/-- Inverse of `spr_convert_dbl_idx`. -/
def spr_convert_dbl_inverse_idx (j : Nat) : Nat :=
  (j &&& MASK_3F) ||| ((j ^^^ 1) &&& 1) ||| ((j &&& 0x1E) <<< 1) |||
    ((((j >>> 5) &&& 1) ^^^ 1) <<< 1)

/-- Inverse of `fix_convert_idx`. -/
def fix_convert_inverse_idx (j : Nat) : Nat :=
  (j &&& MASK_1F) ||| ((j &&& 7) <<< 2) ||| ((j >>> 3) &&& 1) |||
    ((((j >>> 4) &&& 1) ^^^ 1) <<< 1)

/-- Inverse sprite conversion: gather through the inverse index map. -/
def spr_convert_inverse (buf_in : List Nat) (size : Nat) : List Nat :=
  convert_loop spr_convert_inverse_idx buf_in size

/-- Inverse double-density sprite conversion. -/
def spr_convert_dbl_inverse (buf_in : List Nat) (size : Nat) : List Nat :=
  convert_loop spr_convert_dbl_inverse_idx buf_in size

/-- Inverse fix conversion. -/
def fix_convert_inverse (buf_in : List Nat) (size : Nat) : List Nat :=
  convert_loop fix_convert_inverse_idx buf_in size

/-- An index map that works inside aligned blocks of `B` elements: the
image of `i` is the base of the block of `i` plus the image of the offset of
`i` in its block, and offsets stay below `B`. -/
structure BlockMap (B : Nat) (F : Nat → Nat) : Prop where
  /-- The block base is kept and the offset is mapped. -/
  split : ∀ i, i < 2 ^ 32 → F i = B * (i / B) + F (i % B)
  /-- Offsets are mapped to offsets. -/
  low : ∀ r, r < B → F r < B

/-! ## C strings and the libc functions the loader calls -/

/-- A C string: its bytes up to, not including, the terminator. -/
abbrev CStr := List Char

/-- The libc `strcasecmp`, as far as the loader uses it: `true` when the
call returns `0` (the strings are equal up to ASCII case). -/
def strcasecmp_zero (a b : CStr) : Bool :=
  a.map Char.toLower == b.map Char.toLower

/-- The libc `strcasestr`, as far as the loader uses it: `true` when the
call returns a non-null pointer (the needle occurs in the haystack, up to
ASCII case). -/
def strcasestr_found (haystack needle : CStr) : Bool :=
  (haystack.map Char.toLower).tails.any
    (fun t => (needle.map Char.toLower).isPrefixOf t)

/-- The libc `strchr(s, c) != NULL`. -/
def strchr_found (s : CStr) (c : Char) : Bool := s.contains c

/-- The libc `strrchr(s, c)` followed by `++`: the part of `s` after the
last occurrence of `c`, or `none` when `c` does not occur. -/
def strrchr_after (c : Char) : CStr → Option CStr
  | [] => none
  | x :: xs =>
    match strrchr_after c xs with
    | some r => some r
    | none => if x = c then some xs else none

/-- The result of `snprintf(buf, n, ...)`: at most `n - 1` bytes of the
formatted text are stored. -/
def snprintf (n : Nat) (text : CStr) : CStr := text.take (n - 1)

/-- The result of `sprintf(buf, "%s/%s", a, b)`. -/
def path_join (a b : CStr) : CStr := a ++ '/' :: b

/-- Conversion of an `int` to `unsigned char`. -/
def to_uint8 (v : Int) : Nat := (v % 256).toNat

/-- Conversion of an integer to `int8_t`. -/
def to_int8 (v : Int) : Int := if v % 256 < 128 then v % 256 else v % 256 - 256

/-- Conversion of an integer to `uint32_t`. -/
def to_uint32 (v : Int) : Nat := (v % 4294967296).toNat

/-! ## Collaborators

Everything the loader reaches through a header that is not part of
`loader.cpp`: file primitives, `/dev/mem`, the status word, the XML
engine, and libc number parsing. -/

/-- An attribute of an XML node (sxmlc `XMLAttribute`). -/
structure XMLAttribute where
  /-- The attribute name. -/
  name : CStr
  /-- The attribute value. -/
  value : CStr
deriving DecidableEq

/-- An XML node as handed to a SAX callback (sxmlc `XMLNode`): tag and
attribute array. -/
structure XMLNode where
  /-- The element name. -/
  tag : CStr
  /-- The attribute array, `n_attributes` long. -/
  attributes : List XMLAttribute
deriving DecidableEq

/-- A parse event delivered to a SAX callback.  `OTHER` stands for every
event kind the callbacks send to their `default:` label. -/
inductive XMLEvent where
  | START_NODE (node : XMLNode)
  | END_NODE (node : XMLNode)
  | ERROR
  | OTHER
deriving DecidableEq

/-- The transform selector `NEO_FILE_*`.  The four constants are declared in
`loader.h`, outside `loader.cpp`; they are taken to be distinct. -/
inductive neo_file_type where
  | NEO_FILE_RAW
  | NEO_FILE_8BIT
  | NEO_FILE_FIX
  | NEO_FILE_SPR
deriving DecidableEq

open neo_file_type

/-- The environment of one run. -/
structure Sys where
  /-- `FileOpen(&f, path, 0)`: the file's `f.size` when it opens. -/
  FileOpen : CStr → Option Nat
  /-- `FileExists(path)`. -/
  FileExists : CStr → Bool
  /-- `access(path, F_OK) == 0`. -/
  access_ok : CStr → Bool
  /-- Whether `open("/dev/mem", ...)` succeeds. -/
  dev_mem : Bool
  /-- Whether `mmap` of `partsz` bytes at `map_addr` succeeds. -/
  mmap_ok : Nat → Nat → Bool
  /-- The status word returned by `user_io_8bit_set_status(0, 0)`. -/
  status : Nat
  /-- `getRootDir()`. -/
  getRootDir : CStr
  /-- `HomeDir`. -/
  HomeDir : CStr
  /-- The events `XMLDoc_parse_file_SAX` delivers for the file at a path. -/
  xml_events : CStr → List XMLEvent
  /-- `FileGenerateSavePath(name, out)`: the path written to `out`. -/
  FileGenerateSavePath : CStr → CStr
  /-- The libc `atoi`. -/
  atoi : CStr → Int
  /-- The libc `strtol(s, NULL, 0)`. -/
  strtol : CStr → Int
  /-- The libc `strtoul(s, NULL, 0)`, an `unsigned long` of 32 bits. -/
  strtoul : CStr → Nat

/-- Arguments of one call of `neogeo_tx`, as written at the call site
(the index before its conversion to the parameter type `int8_t`). -/
structure TxReq where
  /-- The directory. -/
  path : CStr
  /-- The file name inside it. -/
  name : CStr
  /-- The transform selector. -/
  neo_file_type : neo_file_type
  /-- The destination index. -/
  index : Int
  /-- The file offset. -/
  offset : Nat
  /-- The size, `0` for the rest of the file. -/
  size : Nat
  /-- The expand amount, `0` by default. -/
  expand : Nat
deriving DecidableEq

/-- Observable actions of the loader, in program order. -/
inductive Effect where
  /-- `user_io_set_index(index)`. -/
  | set_index (index : Nat)
  /-- `spi8(UIO_FILE_TX); spi8(0xff)`. -/
  | tx_begin
  /-- One `UIO_FILE_TX_DAT` frame of `chunk` bytes sent by `neogeo_file_tx`. -/
  | tx_data (type : neo_file_type) (index : Nat) (chunk : Nat)
  /-- `spi8(UIO_FILE_TX); spi8(0x00)`. -/
  | tx_end
  /-- `neogeo_osd_progress(name, progress)`. -/
  | osd_progress (name : CStr) (progress : Int)
  /-- One window of `load_crom_to_mem`: mapped address, mapped size, bytes
  read from the file. -/
  | crom_window (map_addr partsz read : Nat)
  /-- One window of `load_rom_to_mem`: mapped address, mapped size, bytes
  read from the file, transform. -/
  | rom_window (map_addr partsz read : Nat) (type : neo_file_type)
  /-- `notify_core(index, size)` with the copy flag it sends. -/
  | notify (index : Nat) (size : Nat) (memcp : Bool)
  /-- `user_io_8bit_set_status(value, mask)`. -/
  | set_status (value mask : Nat)
  /-- `FileExists(path)` asked by the validation pass. -/
  | file_exists (path : CStr)
  /-- `Info(text)`. -/
  | info (text : CStr)
  /-- Entry of `neogeo_tx` with its arguments. -/
  | call_neogeo_tx (req : TxReq)
  /-- Entry of `neogeo_file_tx`. -/
  | call_neogeo_file_tx (path name : CStr) (type : neo_file_type) (index offset size : Nat)
  /-- `user_io_file_mount(path, 2, 1)`. -/
  | file_mount (path : CStr)
deriving DecidableEq

/-! ## Command-channel transfer (loader.cpp, lines 95-198) -/

/-- The size of `buf` and `buf_out` in `neogeo_file_tx`. -/
def CHUNK : Nat := 4096

/-- `PROGRESS_MAX`: `6 * 10 - 1`. -/
def PROGRESS_MAX : Nat := 6 * 10 - 1

/-- The `while (bytes2send)` loop of `neogeo_file_tx` (lines 150-187).
Every iteration lowers `bytes2send`, so a call with `fuel = bytes2send`
never meets the first equation with bytes left. -/
def file_tx_loop (name : CStr) (type : neo_file_type) (index size : Nat) :
    Nat → Nat → Int → List Effect
  | 0, _, _ => []
  | fuel + 1, bytes2send, progress =>
    if bytes2send = 0 then []
    else
      let chunk := if bytes2send > CHUNK then CHUNK else bytes2send
      let new_progress : Int :=
        (PROGRESS_MAX : Int) - ((bytes2send * PROGRESS_MAX / size : Nat) : Int)
      Effect.tx_data type index chunk ::
        ((if progress ≠ new_progress then [Effect.osd_progress name new_progress] else []) ++
          file_tx_loop name type index size fuel (bytes2send - chunk) new_progress)

/-- Line 129 (and 208, 277): `if (!size && offset < f.size) size = f.size - offset;`
with `size` a `uint32_t`. -/
def resolve_size (fsize offset size : Nat) : Nat :=
  if size = 0 ∧ offset < fsize then (fsize - offset) % 2 ^ 32 else size

/-- The function `neogeo_file_tx` (lines 120-198): the value returned and
the actions performed.  `size = f.size - offset` is stored in a
`uint32_t`. -/
def neogeo_file_tx (sys : Sys) (path name : CStr) (type : neo_file_type)
    (index offset size : Nat) : Nat × List Effect :=
  match sys.FileOpen (path_join path name) with
  | none => (0, [])
  | some fsize =>
    let size := resolve_size fsize offset size
    if size = 0 then (0, [])
    else
      let index := if type = NEO_FILE_SPR ∧ index ≠ 15 then index ^^^ 1 else index
      (size,
        [Effect.set_index index, Effect.tx_begin] ++
          file_tx_loop name type index size size size (-1) ++ [Effect.tx_end])

/-! ## Memory-window transfers (loader.cpp, lines 200-355) -/

/-- One mebibyte, the largest window. -/
def MiB : Nat := 1024 * 1024

/-- The `while (remain)` loop of `load_crom_to_mem` (lines 234-262): the
final `map_addr`, or `none` when a window fails to map, and the actions.
Every iteration lowers `remain`, so `fuel = remain` is enough. -/
def load_crom_loop (sys : Sys) (name : CStr) (size : Nat) :
    Nat → Nat → Nat → Int → Option Nat × List Effect
  | 0, _, map_addr, _ => (some map_addr, [])
  | fuel + 1, remain, map_addr, progress =>
    if remain = 0 then (some map_addr, [])
    else
      let partsz := if remain > MiB then MiB else remain
      if sys.mmap_ok map_addr partsz = false then (none, [])
      else
        let new_progress : Int :=
          (PROGRESS_MAX : Int) - (((remain - partsz) * PROGRESS_MAX / size : Nat) : Int)
        let r := load_crom_loop sys name size fuel (remain - partsz)
          ((map_addr + partsz) % 2 ^ 32) new_progress
        (r.1, Effect.crom_window map_addr partsz (partsz / 2) ::
          ((if progress ≠ new_progress then [Effect.osd_progress name new_progress] else []) ++
            r.2))

/-- The function `load_crom_to_mem` (lines 201-268), `index` a `uint8_t`. -/
def load_crom_to_mem (sys : Sys) (path name : CStr) (index offset size : Nat) :
    Nat × List Effect :=
  match sys.FileOpen (path_join path name) with
  | none => (0, [])
  | some fsize =>
    let size := resolve_size fsize offset size
    if size = 0 then (0, [])
    else if sys.dev_mem = false then (0, [])
    else
      let size := size * 2 % 2 ^ 32
      let map_addr := to_uint32 (0x38000000 + (((index : Int) - 64) / 2) * 1024 * 1024)
      match load_crom_loop sys name size size size map_addr (-1) with
      | (none, es) => (0, es)
      | (some map_addr, es) => (to_uint32 ((map_addr : Int) - 0x38000000), es)

/-- Line 302: the first mapped address of `load_rom_to_mem`. -/
def load_rom_map_addr (index : Nat) : Nat :=
  0x30000000 +
    (if index ≥ 16 ∧ index < 64 then (index - 16) * 0x80000
     else if index = 9 then 0x2000000 else 0x8000000)

/-- The `while (remain)` loop of `load_rom_to_mem` (lines 304-349);
`remainf` is the resolved part size, which the loop does not change. -/
def load_rom_loop (sys : Sys) (name : CStr) (type : neo_file_type) (size remainf : Nat) :
    Nat → Nat → Nat → Int → Bool × List Effect
  | 0, _, _, _ => (true, [])
  | fuel + 1, remain, map_addr, progress =>
    if remain = 0 then (true, [])
    else
      let partsz := if remain > MiB then MiB else remain
      let partszf := if remainf > MiB then MiB else remainf
      if sys.mmap_ok map_addr partsz = false then (false, [])
      else
        let new_progress : Int :=
          (PROGRESS_MAX : Int) - (((remain - partsz) * PROGRESS_MAX / size : Nat) : Int)
        let r := load_rom_loop sys name type size remainf fuel (remain - partsz)
          ((map_addr + partsz) % 2 ^ 32) new_progress
        (r.1, Effect.rom_window map_addr partsz partszf type ::
          ((if progress ≠ new_progress then [Effect.osd_progress name new_progress] else []) ++
            r.2))

/-- The function `load_rom_to_mem` (lines 270-355), `index` a `uint8_t`. -/
def load_rom_to_mem (sys : Sys) (path name : CStr) (type : neo_file_type)
    (index offset size expand : Nat) : Nat × List Effect :=
  match sys.FileOpen (path_join path name) with
  | none => (0, [])
  | some fsize =>
    let size := resolve_size fsize offset size
    if size = 0 then (0, [])
    else if sys.dev_mem = false then (0, [])
    else
      let remainf := size
      let size := if expand ≠ 0 then expand else size
      match load_rom_loop sys name type size remainf size size (load_rom_map_addr index) (-1) with
      | (false, es) => (0, es)
      | (true, es) => (size, es)

/-- The function `notify_core` (lines 357-382), with the copy flag
computed at line 366. -/
def notify_core (index size : Nat) : List Effect :=
  [Effect.notify index size (!(index == 9 || (decide (index ≥ 16) && decide (index < 64))))]

/-- The function `neogeo_tx` (lines 384-415) on the global `crom_sz`:
the value returned, the new `crom_sz`, and the actions. -/
def neogeo_tx (sys : Sys) (crom_sz : Nat) (req : TxReq) : Nat × Nat × List Effect :=
  let index : Int := to_int8 req.index
  if index ≥ 64 then
    let r := load_crom_to_mem sys req.path req.name index.toNat req.offset req.size
    (r.1, (if r.1 > crom_sz then r.1 else crom_sz), Effect.call_neogeo_tx req :: r.2)
  else
    let flush : Nat × Nat × List Effect :=
      if crom_sz ≠ 0 then (crom_sz, 0, notify_core 15 crom_sz) else (0, crom_sz, [])
    if index ≥ 0 then
      let r := load_rom_to_mem sys req.path req.name req.neo_file_type index.toNat
        req.offset req.size req.expand
      (r.1, flush.2.1, Effect.call_neogeo_tx req :: (flush.2.2 ++ r.2 ++
        (if r.1 ≠ 0 then notify_core index.toNat r.1 else [])))
    else (flush.1, flush.2.1, Effect.call_neogeo_tx req :: flush.2.2)

/-- Consecutive calls of `neogeo_tx`: the final `crom_sz` and all actions. -/
def neogeo_tx_seq (sys : Sys) : Nat → List TxReq → Nat × List Effect
  | crom_sz, [] => (crom_sz, [])
  | crom_sz, req :: rest =>
    let r := neogeo_tx sys crom_sz req
    let t := neogeo_tx_seq sys r.2.1 rest
    (t.1, r.2.2 ++ t.2)

/-- The notifications among a list of actions, as (index, size) pairs. -/
def notifications (es : List Effect) : List (Nat × Nat) :=
  es.filterMap (fun e => match e with
    | Effect.notify index size _ => some (index, size)
    | _ => none)

/-! ## Manifest name matching (loader.cpp, lines 564-576) -/

/-- The function `has_name`. -/
def has_name (nameset name : CStr) : Int :=
  if strchr_found nameset ',' then
    let set := snprintf (256 - 1) (',' :: nameset ++ [','])
    let nm := snprintf (32 - 1) (',' :: name ++ [','])
    if strcasestr_found set nm then 1 else 0
  else if strcasecmp_zero nameset name then 1 else 0

/-- Specification side: the comma-separated tokens of an alias list. -/
def tokens : CStr → List CStr
  | [] => [[]]
  | c :: cs =>
    if c = ',' then [] :: tokens cs
    else
      match tokens cs with
      | [] => [[c]]
      | t :: ts => (c :: t) :: ts

/-- Specification side: the match the claim describes, exact equality or
an exact token of a comma-joined alias list. -/
def spec_name_match (nameset name : CStr) : Prop :=
  name = nameset ∨ (',' ∈ nameset ∧ name ∈ tokens nameset)

/-! ## The SAX driver -/

/-- Modelled from the spec: the generic event-driven XML parsing engine
(`XMLDoc_parse_file_SAX` of sxmlc) is not part of `loader.cpp`.  It hands
the events of the document to the callback in order and stops at the first
event for which the callback returns `0`.  The result is the final state,
the actions, and the events left unread; `none` when the callback faults. -/
def run_sax {σ ε : Type} (cb : σ → XMLEvent → Option (Bool × σ × List ε)) :
    List XMLEvent → σ → Option (σ × List ε × List XMLEvent)
  | [], s => some (s, [], [])
  | e :: es, s =>
    match cb s e with
    | none => none
    | some (false, s1, out) => some (s1, out, es)
    | some (true, s1, out) =>
      match run_sax cb es s1 with
      | none => none
      | some (s2, out2, rest) => some (s2, out ++ out2, rest)

/-! ## Validation pass (loader.cpp, lines 578-663) -/

/-- The variables `xml_check_files` reads and writes: the globals
`checked_ok` and `romsets`, and its static `in_correct_romset`. -/
structure CheckState where
  /-- The global `checked_ok`. -/
  checked_ok : Bool
  /-- The global `romsets`. -/
  romsets : Bool
  /-- The static `in_correct_romset` of `xml_check_files`. -/
  in_correct_romset : Bool
deriving DecidableEq

/-- The attribute loop of lines 616-634: the callback's verdict (`false`
for the early `return false`) and the actions. -/
def check_file_attributes (sys : Sys) (path : CStr) : List XMLAttribute → Bool × List Effect
  | [] => (true, [])
  | a :: rest =>
    if strcasecmp_zero a.name "name".toList then
      if sys.FileExists (path_join path a.value) then
        (true, [Effect.file_exists (path_join path a.value)])
      else
        (false, [Effect.file_exists (path_join path a.value),
          Effect.info ("Missing ".toList ++ a.value ++ " !".toList)])
    else check_file_attributes sys path rest

/-- The callback `xml_check_files`; `user` is `sd->user`.  The result is
`none` where the source reads `node->attributes[0]` of a node without
attributes. -/
def xml_check_files (sys : Sys) (user : Option CStr) (st : CheckState) (evt : XMLEvent) :
    Option (Bool × CheckState × List Effect) :=
  match user with
  | none => some (false, st, [])
  | some path =>
    match strrchr_after '/' path with
    | none => some (false, st, [])
    | some romset =>
      match evt with
      | XMLEvent.START_NODE node =>
        let st1 : CheckState :=
          if strcasecmp_zero node.tag "romsets".toList then { st with romsets := true } else st
        let st2 : Option CheckState :=
          if strcasecmp_zero node.tag "romset".toList then
            if st1.romsets = false then some { st1 with in_correct_romset := true }
            else
              match node.attributes with
              | [] => none
              | a :: _ =>
                if has_name a.value romset ≠ 0 then some { st1 with in_correct_romset := true }
                else some { st1 with in_correct_romset := false }
          else some st1
        match st2 with
        | none => none
        | some st3 =>
          if st3.in_correct_romset = true ∧ strcasecmp_zero node.tag "file".toList = true then
            let r := check_file_attributes sys path node.attributes
            some (r.1, st3, r.2)
          else some (true, st3, [])
      | XMLEvent.END_NODE node =>
        if st.in_correct_romset = true ∧ strcasecmp_zero node.tag "romset".toList = true then
          some (false, { st with checked_ok := true }, [])
        else if strcasecmp_zero node.tag "romsets".toList then some (false, st, [])
        else some (true, st, [])
      | XMLEvent.ERROR => some (true, st, [])
      | XMLEvent.OTHER => some (true, st, [])

/-! ## Execution pass (loader.cpp, lines 665-839) -/

/-- `VROM_SIZE`. -/
def VROM_SIZE : Nat := 16 * 1024 * 1024

/-- The static variables of `xml_load_files` (lines 669-677). -/
structure LoadState where
  /-- The static `file_name`, 16 bytes and a terminator. -/
  file_name : CStr
  /-- The static `in_correct_romset`. -/
  in_correct_romset : Bool
  /-- The static `in_file`. -/
  in_file : Bool
  /-- The static `file_index`, an `unsigned char`. -/
  file_index : Nat
  /-- The static `file_type`. -/
  file_type : neo_file_type
  /-- The static `file_offset`. -/
  file_offset : Nat
  /-- The static `file_size`. -/
  file_size : Nat
  /-- The static `vromb_offset`. -/
  vromb_offset : Nat
  /-- The static `hw_type`, an `unsigned char`. -/
  hw_type : Nat
  /-- The static `use_pcm`, an `unsigned char`. -/
  use_pcm : Nat
  /-- The static `file_cnt`. -/
  file_cnt : Nat
  /-- The static `vrom_mirror`. -/
  vrom_mirror : Nat
deriving DecidableEq

/-- The initial values of the statics. -/
def LoadState.init : LoadState :=
  { file_name := [], in_correct_romset := false, in_file := false, file_index := 0,
    file_type := NEO_FILE_RAW, file_offset := 0, file_size := 0, vromb_offset := 0,
    hw_type := 0, use_pcm := 0, file_cnt := 0, vrom_mirror := 1 }

/-- A call `xml_load_files` makes, in program order. -/
inductive Call where
  /-- A call of `neogeo_tx`. -/
  | neogeo_tx (req : TxReq)
  /-- A call of `user_io_8bit_set_status`. -/
  | set_status (value mask : Nat)
deriving DecidableEq

/-- The requests to `neogeo_tx` among a list of calls. -/
def tx_requests (cs : List Call) : List TxReq :=
  cs.filterMap (fun c => match c with
    | Call.neogeo_tx req => some req
    | _ => none)

/-- One round of the attribute loop of a `romset` start tag (lines 695-713). -/
def load_romset_attribute (sys : Sys) (romsets : Bool) (romset : CStr) (st : LoadState)
    (a : XMLAttribute) : LoadState :=
  if romsets = true ∧ strcasecmp_zero a.name "name".toList = true then
    if has_name a.value romset ≠ 0 then { st with in_correct_romset := true }
    else { st with in_correct_romset := false }
  else if strcasecmp_zero a.name "hw".toList then
    { st with hw_type := to_uint8 (sys.atoi a.value) }
  else if strcasecmp_zero a.name "pcm".toList then
    { st with use_pcm := to_uint8 (sys.atoi a.value) }
  else if strcasecmp_zero a.name "vromb_offset".toList then
    { st with vromb_offset := sys.strtoul a.value % 2 ^ 32, use_pcm := 0 }
  else if strcasecmp_zero a.name "vrom_mirror".toList then
    { st with vrom_mirror := sys.strtoul a.value % 2 ^ 32 }
  else st

/-- The `switch` on a legacy type letter (lines 744-767). -/
def load_file_type_letter (st : LoadState) (value : CStr) : LoadState :=
  match value.head? with
  | some 'C' => { st with file_index := 15, file_type := NEO_FILE_SPR }
  | some 'M' => { st with file_index := 9 }
  | some 'P' => { st with file_index := 4 }
  | some 'S' => { st with file_index := 8, file_type := NEO_FILE_FIX }
  | some 'V' => { st with file_index := 16 }
  | _ => st

/-- Lines 730-731: the `name` attribute of a `file` element. -/
def load_file_name (st : LoadState) (a : XMLAttribute) : LoadState :=
  if strcasecmp_zero a.name "name".toList then { st with file_name := a.value.take 16 } else st

/-- Lines 734-739: the `index` attribute of a `file` element. -/
def load_file_index (sys : Sys) (st : LoadState) (a : XMLAttribute) : LoadState :=
  if strcasecmp_zero a.name "index".toList then
    if to_uint8 (sys.atoi a.value) ≥ 64 ∨ to_uint8 (sys.atoi a.value) = 15 then
      { st with file_index := to_uint8 (sys.atoi a.value), file_type := NEO_FILE_SPR }
    else if to_uint8 (sys.atoi a.value) = 2 ∨ to_uint8 (sys.atoi a.value) = 8 then
      { st with file_index := to_uint8 (sys.atoi a.value), file_type := NEO_FILE_FIX }
    else { st with file_index := to_uint8 (sys.atoi a.value) }
  else st

/-- Lines 743-768: the `type` attribute of a `file` element. -/
def load_file_type (st : LoadState) (a : XMLAttribute) : LoadState :=
  if strcasecmp_zero a.name "type".toList then load_file_type_letter st a.value else st

/-- Lines 771-772: the `offset` attribute of a `file` element. -/
def load_file_offset (sys : Sys) (st : LoadState) (a : XMLAttribute) : LoadState :=
  if strcasecmp_zero a.name "offset".toList then
    { st with file_offset := to_uint32 (sys.strtol a.value) }
  else st

/-- Lines 774-775: the `size` attribute of a `file` element. -/
def load_file_size (sys : Sys) (st : LoadState) (a : XMLAttribute) : LoadState :=
  if strcasecmp_zero a.name "size".toList then
    { st with file_size := to_uint32 (sys.strtol a.value) }
  else st

/-- One round of the attribute loop of a `file` start tag (lines 729-776). -/
def load_file_attribute (sys : Sys) (use_index : Bool) (st : LoadState) (a : XMLAttribute) :
    LoadState :=
  let st1 := load_file_name st a
  let st2 := if use_index then load_file_index sys st1 a else load_file_type st1 a
  let st3 := load_file_offset sys st2 a
  load_file_size sys st3 a

/-- The fallback of lines 789-805: the calls made when a part-list closes
with no file element. -/
def load_known_files (path : CStr) (st : LoadState) : List Call :=
  let expand := if st.vrom_mirror ≠ 0 then 0 else VROM_SIZE
  [Call.neogeo_tx ⟨path, "prom".toList, NEO_FILE_RAW, 4, 0, 0, 0⟩,
   Call.neogeo_tx ⟨path, "p1rom".toList, NEO_FILE_RAW, 4, 0, 0, 0⟩,
   Call.neogeo_tx ⟨path, "p2rom".toList, NEO_FILE_RAW, 6, 0, 0, 0⟩,
   Call.neogeo_tx ⟨path, "srom".toList, NEO_FILE_FIX, 8, 0, 0, 0⟩,
   Call.neogeo_tx ⟨path, "crom0".toList, NEO_FILE_SPR, 15, 0, 0, 0⟩,
   Call.neogeo_tx ⟨path, "m1rom".toList, NEO_FILE_RAW, 9, 0, 0, 0⟩] ++
  (if st.vromb_offset ≠ 0 then
    [Call.neogeo_tx ⟨path, "vroma0".toList, NEO_FILE_RAW, 16, 0, st.vromb_offset, expand⟩,
     Call.neogeo_tx ⟨path, "vroma0".toList, NEO_FILE_RAW, 48, st.vromb_offset, 0, expand⟩]
   else
    Call.neogeo_tx ⟨path, "vroma0".toList, NEO_FILE_RAW, 16, 0, 0, expand⟩ ::
      (if st.use_pcm = 0 then
        [Call.neogeo_tx ⟨path, "vromb0".toList, NEO_FILE_RAW, 48, 0, 0, expand⟩]
       else []))

/-- Lines 818-822: the expand amount of a declared part. -/
def load_file_expand (st : LoadState) : Nat :=
  if st.vrom_mirror = 0 ∧ st.file_index ≥ 16 ∧ st.file_index < 64 then
    VROM_SIZE - (((st.file_index - 16) * 0x80000) &&& 0xFFFFFF)
  else 0

/-- The callback `xml_load_files`; `romsets` is the global the validation
pass has set, `user` is `sd->user`. -/
def xml_load_files (sys : Sys) (romsets : Bool) (user : Option CStr) (st : LoadState)
    (evt : XMLEvent) : Option (Bool × LoadState × List Call) :=
  match user with
  | none => some (false, st, [])
  | some path =>
    match strrchr_after '/' path with
    | none => some (false, st, [])
    | some romset =>
      match evt with
      | XMLEvent.START_NODE node =>
        let st1 : LoadState :=
          if strcasecmp_zero node.tag "romset".toList then
            let st0 : LoadState :=
              { st with file_cnt := 0, vromb_offset := 0, vrom_mirror := 1, use_pcm := 1,
                        hw_type := 0 }
            let st0 : LoadState :=
              if romsets = false then { st0 with in_correct_romset := true } else st0
            node.attributes.foldl (load_romset_attribute sys romsets romset) st0
          else st
        if st1.in_correct_romset = true ∧ strcasecmp_zero node.tag "file".toList = true then
          let st2 : LoadState :=
            { st1 with file_offset := 0, file_size := 0, file_type := NEO_FILE_RAW,
                       file_index := 0 }
          let use_index := node.attributes.any (fun a => strcasecmp_zero a.name "index".toList)
          let st3 := node.attributes.foldl (load_file_attribute sys use_index) st2
          some (true, { st3 with in_file := true, file_cnt := st3.file_cnt + 1 }, [])
        else some (true, st1, [])
      | XMLEvent.END_NODE node =>
        if st.in_correct_romset = true then
          if strcasecmp_zero node.tag "romset".toList then
            some (false, st,
              (if st.file_cnt = 0 then load_known_files path st else []) ++
                [Call.set_status ((st.hw_type &&& 3) <<< 24) 0x03000000,
                 Call.set_status ((st.use_pcm &&& 1) <<< 26) 0x04000000])
          else if strcasecmp_zero node.tag "file".toList then
            some (true, { st with in_file := false },
              if st.in_file = true then
                [Call.neogeo_tx ⟨path, st.file_name, st.file_type, st.file_index,
                  st.file_offset, st.file_size, load_file_expand st⟩]
              else [])
          else some (true, st, [])
        else some (true, st, [])
      | XMLEvent.ERROR => some (true, st, [])
      | XMLEvent.OTHER => some (true, st, [])

/-! ## Orchestrator (loader.cpp, lines 841-934) -/

/-- The variables that outlive a call of `neogeo_romset_tx`: the global
`crom_sz`, the variables of the validation pass and the statics of the
execution pass. -/
structure Globals where
  /-- The global `crom_sz`. -/
  crom_sz : Nat
  /-- The globals `checked_ok`, `romsets` and the static of `xml_check_files`. -/
  check : CheckState
  /-- The statics of `xml_load_files`. -/
  load : LoadState
deriving DecidableEq

/-- The calls of `xml_load_files` carried out in order on `crom_sz`. -/
def exec_calls (sys : Sys) : Nat → List Call → Nat × List Effect
  | crom_sz, [] => (crom_sz, [])
  | crom_sz, Call.neogeo_tx req :: rest =>
    let r := neogeo_tx sys crom_sz req
    let t := exec_calls sys r.2.1 rest
    (t.1, r.2.2 ++ t.2)
  | crom_sz, Call.set_status value mask :: rest =>
    let t := exec_calls sys crom_sz rest
    (t.1, Effect.set_status value mask :: t.2)

/-- The manifest path chosen at lines 860-861. -/
def manifest_path (sys : Sys) (name : CStr) : CStr :=
  if sys.access_ok (sys.getRootDir ++ '/' :: name ++ "/romset.xml".toList) then
    sys.getRootDir ++ '/' :: name ++ "/romset.xml".toList
  else sys.getRootDir ++ '/' :: sys.HomeDir ++ "/romsets.xml".toList

/-- Lines 878-900: the system ROM request. -/
def system_rom_requests (sys : Sys) (romset : CStr) (system_type : Nat) :
    List Effect × List TxReq :=
  if romset ≠ "debug".toList then
    if system_type &&& 2 = 0 then
      if sys.FileExists (sys.HomeDir ++ "/uni-bios.rom".toList) then
        ([Effect.file_exists (sys.HomeDir ++ "/uni-bios.rom".toList)],
          [⟨sys.HomeDir, "uni-bios.rom".toList, NEO_FILE_RAW, 0, 0, 0x20000, 0⟩])
      else if system_type = 0 then
        ([Effect.file_exists (sys.HomeDir ++ "/uni-bios.rom".toList)],
          [⟨sys.HomeDir, "neo-epo.sp1".toList, NEO_FILE_RAW, 0, 0, 0x20000, 0⟩])
      else
        ([Effect.file_exists (sys.HomeDir ++ "/uni-bios.rom".toList)],
          [⟨sys.HomeDir, "sp-s2.sp1".toList, NEO_FILE_RAW, 0, 0, 0x20000, 0⟩])
    else if system_type = 2 then
      ([], [⟨sys.HomeDir, "top-sp1.bin".toList, NEO_FILE_RAW, 0, 0, 0x80000, 0⟩])
    else ([], [⟨sys.HomeDir, "neocd.bin".toList, NEO_FILE_RAW, 0, 0, 0x80000, 0⟩])
  else ([], [])

/-- Lines 908-926: the sprite gap hack status value. -/
def gap_hack_status (romset : CStr) : Nat :=
  if romset = "kof95".toList then 0x10000000
  else if romset = "whp".toList then 0x20000000
  else if romset = "kizuna".toList then 0x30000000
  else 0

/-- Lines 878-933 of `neogeo_romset_tx`: everything after the manifest
passes.  The result is the final `crom_sz` and the actions.  The flush call
of line 903 passes null names and the selector `0`, none of which is read
for the index `-1`. -/
def romset_tx_finish (sys : Sys) (name romset : CStr) (system_type crom_sz : Nat) :
    Nat × List Effect :=
  let bios := system_rom_requests sys romset system_type
  let flush : TxReq := ⟨[], [], NEO_FILE_RAW, -1, 0, 0, 0⟩
  let sfix : List TxReq :=
    if system_type &&& 2 = 0 then
      [⟨sys.HomeDir, "sfix.sfix".toList, NEO_FILE_FIX, 2, 0, 0x10000, 0⟩]
    else []
  let r := neogeo_tx_seq sys crom_sz (bios.2 ++ flush :: sfix)
  let lo := neogeo_file_tx sys sys.HomeDir "000-lo.lo".toList NEO_FILE_8BIT 1 0 0x10000
  (r.1,
    bios.1 ++ r.2 ++
      Effect.call_neogeo_file_tx sys.HomeDir "000-lo.lo".toList NEO_FILE_8BIT 1 0 0x10000 ::
        lo.2 ++
      [Effect.set_status (gap_hack_status romset) 0x30000000,
       Effect.file_mount
         (sys.FileGenerateSavePath (if system_type &&& 2 ≠ 0 then "ngcd".toList else name)),
       Effect.set_status 0 1])

/-- The function `neogeo_romset_tx`: the value returned, the variables
afterwards and the actions; `none` when the validation callback faults. -/
def neogeo_romset_tx (sys : Sys) (g : Globals) (name : CStr) :
    Option (Int × Globals × List Effect) :=
  match strrchr_after '/' name with
  | none => some (0, g, [])
  | some romset =>
    let system_type := (sys.status >>> 1) &&& 3
    let start := [Effect.set_status 0 0, Effect.set_status 1 1]
    if system_type &&& 2 = 0 then
      let events := sys.xml_events (manifest_path sys name)
      match run_sax (xml_check_files sys (some name)) events
          { g.check with checked_ok := false, romsets := false } with
      | none => none
      | some (chk, check_effects, _) =>
        if chk.checked_ok = false then
          some (0, { crom_sz := 0, check := chk, load := g.load }, start ++ check_effects)
        else
          match run_sax (xml_load_files sys chk.romsets (some name)) events g.load with
          | none => none
          | some (ld, calls, _) =>
            let x := exec_calls sys 0 calls
            let t := romset_tx_finish sys name romset system_type x.1
            some (1, { crom_sz := t.1, check := chk, load := ld },
              start ++ check_effects ++ x.2 ++ t.2)
    else
      let t := romset_tx_finish sys name romset system_type 0
      some (1, { crom_sz := t.1, check := g.check, load := g.load }, start ++ t.2)

/-- Actions that move ROM data or tell the core about it: calls of
`neogeo_tx` and `neogeo_file_tx`, data frames, windows and notifications. -/
def Effect.is_transfer : Effect → Bool
  | Effect.set_index _ => true
  | Effect.tx_begin => true
  | Effect.tx_data _ _ _ => true
  | Effect.tx_end => true
  | Effect.crom_window _ _ _ => true
  | Effect.rom_window _ _ _ _ => true
  | Effect.notify _ _ _ => true
  | Effect.call_neogeo_tx _ => true
  | Effect.call_neogeo_file_tx _ _ _ _ _ _ => true
  | _ => false

/-- Actions of the validation pass: existence checks and messages. -/
def Effect.is_check : Effect → Bool
  | Effect.file_exists _ => true
  | Effect.info _ => true
  | _ => false

/-! ## Manifests as event streams -/

/-- The events of one `file` element with the given attributes. -/
def file_events (attributes : List XMLAttribute) : List XMLEvent :=
  [XMLEvent.START_NODE ⟨"file".toList, attributes⟩,
   XMLEvent.END_NODE ⟨"file".toList, attributes⟩]

/-- The events of one `romset` element: its attributes and the attribute
lists of its `file` children. -/
def romset_events (attributes : List XMLAttribute) (files : List (List XMLAttribute)) :
    List XMLEvent :=
  XMLEvent.START_NODE ⟨"romset".toList, attributes⟩ ::
    (files.flatMap file_events ++ [XMLEvent.END_NODE ⟨"romset".toList, attributes⟩])

/-- The events of a shared manifest: a `romsets` root around part-lists. -/
def romsets_events (sets : List (List XMLAttribute × List (List XMLAttribute))) :
    List XMLEvent :=
  XMLEvent.START_NODE ⟨"romsets".toList, []⟩ ::
    (sets.flatMap (fun r => romset_events r.1 r.2) ++
      [XMLEvent.END_NODE ⟨"romsets".toList, []⟩])

/-- The path whose existence the validation pass checks for a `file`
element: that of its first `name` attribute, if it has one. -/
def checked_path (path : CStr) : List XMLAttribute → Option CStr
  | [] => none
  | a :: rest =>
    if strcasecmp_zero a.name "name".toList then some (path_join path a.value)
    else checked_path path rest

/-- The validation pass's test of a `romset` start tag inside a `romsets`
root (line 602). -/
def check_matches (romset : CStr) (attributes : List XMLAttribute) : Bool :=
  match attributes with
  | [] => false
  | a :: _ => has_name a.value romset != 0

/-- The fixed table of the Part Descriptor invariant: the transform that
belongs to a destination index. -/
def index_transform (index : Nat) : neo_file_type :=
  if index = 15 ∨ index ≥ 64 then NEO_FILE_SPR
  else if index = 2 ∨ index = 8 then NEO_FILE_FIX
  else NEO_FILE_RAW

/-- The size `load_crom_to_mem` returns to `neogeo_tx` for a request. -/
def crom_size (sys : Sys) (q : TxReq) : Nat :=
  (load_crom_to_mem sys q.path q.name (to_int8 q.index).toNat q.offset q.size).1

/-- The size `load_rom_to_mem` returns to `neogeo_tx` for a request. -/
def rom_size (sys : Sys) (q : TxReq) : Nat :=
  (load_rom_to_mem sys q.path q.name q.neo_file_type (to_int8 q.index).toNat q.offset q.size
    q.expand).1

/-- The notifications for index 15 among the notifications of a run. -/
def index15_notifications (ns : List (Nat × Nat)) : List (Nat × Nat) :=
  ns.filter (fun n => n.1 == 15)

/-- The specified match is decidable. -/
instance spec_name_match_decidable (nameset name : CStr) :
    Decidable (spec_name_match nameset name) :=
  inferInstanceAs (Decidable (name = nameset ∨ (',' ∈ nameset ∧ name ∈ tokens nameset)))

/-- The paths passed to `FileExists` among a list of actions. -/
def existence_checks (es : List Effect) : List CStr :=
  es.filterMap (fun e => match e with
    | Effect.file_exists p => some p
    | _ => none)

/-- The events of a manifest.  With `wrapped` it is a shared manifest: a
`romsets` root holding the part-lists `before`, the part-list with the
given attributes and files, and the part-lists `after`.  Without, it is a
legacy single part-list file. -/
def manifest_events (wrapped : Bool)
    (before : List (List XMLAttribute × List (List XMLAttribute)))
    (attributes : List XMLAttribute) (files : List (List XMLAttribute))
    (after : List (List XMLAttribute × List (List XMLAttribute))) : List XMLEvent :=
  if wrapped then romsets_events (before ++ (attributes, files) :: after)
  else romset_events attributes files

/-- The paths the validation pass checks for a list of `file` elements that
are all present. -/
def checked_paths (path : CStr) (files : List (List XMLAttribute)) : List CStr :=
  files.flatMap (fun f => (checked_path path f).toList)

/-- The transform and the index held by the statics of `xml_load_files`. -/
def type_index (st : LoadState) : neo_file_type × Nat := (st.file_type, st.file_index)

/-- The windows of `load_crom_to_mem` among a list of actions, as
(mapped address, mapped size, bytes read) triples. -/
def crom_windows (es : List Effect) : List (Nat × Nat × Nat) :=
  es.filterMap (fun e => match e with
    | Effect.crom_window map_addr partsz read => some (map_addr, partsz, read)
    | _ => none)

/-- The windows of `load_rom_to_mem` among a list of actions, as
(mapped address, mapped size, bytes requested from the file) triples. -/
def rom_windows (es : List Effect) : List (Nat × Nat × Nat) :=
  es.filterMap (fun e => match e with
    | Effect.rom_window map_addr partsz read _ => some (map_addr, partsz, read)
    | _ => none)

/-! ## A sample environment -/

/-- Decimal digits read as a number; the `atoi` of the sample environment. -/
def sample_atoi (s : CStr) : Int :=
  s.foldl (fun acc c => acc * 10 + ((c.toNat : Int) - 48)) 0

/-- A sample environment: every file but `absent` opens and is 100 bytes
long, every file but `missing.bin` exists, mappings succeed, the system
type is 0 and every manifest is a shared one whose single part-list `demo`
declares the file `missing.bin`. -/
def sample_sys : Sys :=
  { FileOpen := fun p => if p = "roms/absent".toList then none else some 100
    FileExists := fun p => p != "games/demo/missing.bin".toList
    access_ok := fun _ => false
    dev_mem := true
    mmap_ok := fun _ _ => true
    status := 0
    getRootDir := "root".toList
    HomeDir := "home".toList
    xml_events := fun _ =>
      romsets_events [([⟨"name".toList, "demo".toList⟩],
        [[⟨"name".toList, "missing.bin".toList⟩]])]
    FileGenerateSavePath := fun n => n ++ ".sav".toList
    atoi := sample_atoi
    strtol := sample_atoi
    strtoul := fun s => (sample_atoi s).toNat }


/-! # Theorems -/

/-! ## Bit-mask arithmetic -/

theorem and_block_mask (i k : Nat) (hk : k ≤ 32) (hi : i < 2 ^ 32) :
    i &&& (2 ^ 32 - 2 ^ k) = 2 ^ k * (i / 2 ^ k) := by
  apply Nat.eq_of_testBit_eq
  intro j
  have hm : 2 ^ 32 - 2 ^ k = (2 ^ (32 - k) - 1) <<< k := by
    rw [Nat.shiftLeft_eq, Nat.sub_mul, one_mul, ← pow_add]
    congr 2
    omega
  rw [hm, Nat.mul_comm, ← Nat.shiftLeft_eq, ← Nat.shiftRight_eq_div_pow]
  simp only [Nat.testBit_and, Nat.testBit_shiftLeft, Nat.testBit_two_pow_sub_one,
    Nat.testBit_shiftRight]
  by_cases hjk : k ≤ j
  · have e : k + (j - k) = j := by omega
    simp only [ge_iff_le, hjk, decide_True, Bool.true_and, e]
    by_cases hj : j < 32
    · have : j - k < 32 - k := by omega
      simp [this]
    · have : i.testBit j = false :=
        Nat.testBit_lt_two_pow (lt_of_lt_of_le hi (Nat.pow_le_pow_right (by decide) (by omega)))
      simp [this]
  · simp [hjk]

theorem and_low_mod (a c k : Nat) (h : c < 2 ^ k) : a &&& c = (a % 2 ^ k) &&& c := by
  apply Nat.eq_of_testBit_eq
  intro j
  simp only [Nat.testBit_and, Nat.testBit_mod_two_pow]
  by_cases hj : j < k
  · simp [hj]
  · have : c.testBit j = false :=
      Nat.testBit_lt_two_pow (lt_of_lt_of_le h (Nat.pow_le_pow_right (by decide) (by omega)))
    simp [this]

theorem shr_and_mod (i s c k b : Nat) (hc : c < 2 ^ k) (hb : s + k ≤ b) :
    (i >>> s) &&& c = ((i % 2 ^ b) >>> s) &&& c := by
  rw [and_low_mod (i >>> s) c k hc, and_low_mod ((i % 2 ^ b) >>> s) c k hc]
  congr 1
  apply Nat.eq_of_testBit_eq
  intro j
  simp only [Nat.testBit_mod_two_pow, Nat.testBit_shiftRight]
  by_cases hj : j < k
  · have : s + j < b := by omega
    simp [hj, this]
  · simp [hj]

theorem BlockMap.div_eq {B : Nat} {F : Nat → Nat} (h : BlockMap B F) (hB : 0 < B)
    (i : Nat) (hi : i < 2 ^ 32) : F i / B = i / B := by
  rw [h.split i hi, Nat.mul_add_div hB, Nat.div_eq_of_lt (h.low _ (Nat.mod_lt _ hB))]
  rfl

theorem BlockMap.mod_eq {B : Nat} {F : Nat → Nat} (h : BlockMap B F) (hB : 0 < B)
    (i : Nat) (hi : i < 2 ^ 32) : F i % B = F (i % B) := by
  rw [h.split i hi, Nat.mul_add_mod, Nat.mod_eq_of_lt (h.low _ (Nat.mod_lt _ hB))]

theorem BlockMap.lt_of_lt {B : Nat} {F : Nat → Nat} (h : BlockMap B F) (hB : 0 < B)
    (n i : Nat) (hn : n % B = 0) (hi32 : i < 2 ^ 32) (hi : i < n) : F i < n := by
  have h1 := h.div_eq hB i hi32
  have h2 : F i % B < B := Nat.mod_lt _ hB
  obtain ⟨m, rfl⟩ : B ∣ n := Nat.dvd_of_mod_eq_zero hn
  have h3 : i / B < m := Nat.div_lt_of_lt_mul hi
  have h4 : F i / B < m := by rw [h1]; exact h3
  rw [Nat.mul_comm]
  exact (Nat.div_lt_iff_lt_mul hB).1 h4

theorem BlockMap.left_inv {B : Nat} {F G : Nat → Nat} (hF : BlockMap B F) (hG : BlockMap B G)
    (hB : 0 < B) (hdvd : 2 ^ 32 % B = 0) (hlow : ∀ r, r < B → G (F r) = r)
    (i : Nat) (hi : i < 2 ^ 32) : G (F i) = i := by
  have hFi : F i < 2 ^ 32 := hF.lt_of_lt hB (2 ^ 32) i hdvd hi hi
  rw [hG.split (F i) hFi, hF.div_eq hB i hi, hF.mod_eq hB i hi, hlow _ (Nat.mod_lt _ hB)]
  exact Nat.div_add_mod i B

theorem spr_convert_idx_blockMap : BlockMap 32 spr_convert_idx := by
  constructor
  · intro i hi
    have hM : i &&& MASK_1F = 32 * (i / 32) := and_block_mask i 5 (by decide) hi
    have h1 : (i >>> 1) &&& 0xF = ((i % 32) >>> 1) &&& 0xF :=
      shr_and_mod i 1 0xF 4 5 (by decide) (by decide)
    have h2 : i &&& 1 = (i % 32) &&& 1 := and_low_mod i 1 5 (by decide)
    have hr : i % 32 < 32 := Nat.mod_lt _ (by decide)
    have key : ∀ r, r < 32 → ((r >>> 1) &&& 0xF ||| ((r &&& 1) ^^^ 1) <<< 4) < 2 ^ 5 ∧
        spr_convert_idx r = ((r >>> 1) &&& 0xF ||| ((r &&& 1) ^^^ 1) <<< 4) := by decide
    obtain ⟨k1, k2⟩ := key (i % 32) hr
    rw [k2]
    unfold spr_convert_idx
    rw [hM, h1, h2, Nat.or_assoc]
    exact (Nat.mul_add_lt_is_or k1 (i / 32)).symm
  · decide

theorem spr_convert_inverse_idx_blockMap : BlockMap 32 spr_convert_inverse_idx := by
  constructor
  · intro i hi
    have hM : i &&& MASK_1F = 32 * (i / 32) := and_block_mask i 5 (by decide) hi
    have h1 : i &&& 0xF = (i % 32) &&& 0xF := and_low_mod i 0xF 5 (by decide)
    have h2 : (i >>> 4) &&& 1 = ((i % 32) >>> 4) &&& 1 :=
      shr_and_mod i 4 1 1 5 (by decide) (by decide)
    have hr : i % 32 < 32 := Nat.mod_lt _ (by decide)
    have key : ∀ r, r < 32 → (((r &&& 0xF) <<< 1) ||| (((r >>> 4) &&& 1) ^^^ 1)) < 2 ^ 5 ∧
        spr_convert_inverse_idx r = (((r &&& 0xF) <<< 1) ||| (((r >>> 4) &&& 1) ^^^ 1)) := by
      decide
    obtain ⟨k1, k2⟩ := key (i % 32) hr
    rw [k2]
    unfold spr_convert_inverse_idx
    rw [hM, h1, h2, Nat.or_assoc]
    exact (Nat.mul_add_lt_is_or k1 (i / 32)).symm
  · decide

theorem xor_one_and_one_mod (i b : Nat) (hb : 0 < b) :
    (i ^^^ 1) &&& 1 = ((i % 2 ^ b) ^^^ 1) &&& 1 := by
  rw [Nat.and_xor_distrib_right, Nat.and_xor_distrib_right, and_low_mod i 1 b]
  calc 1 < 2 ^ 1 := by decide
    _ ≤ 2 ^ b := Nat.pow_le_pow_right (by decide) hb

theorem spr_convert_dbl_idx_blockMap : BlockMap 64 spr_convert_dbl_idx := by
  constructor
  · intro i hi
    have hM : i &&& MASK_3F = 64 * (i / 64) := and_block_mask i 6 (by decide) hi
    have h1 : (i ^^^ 1) &&& 1 = ((i % 64) ^^^ 1) &&& 1 := xor_one_and_one_mod i 6 (by decide)
    have h2 : (i >>> 1) &&& 0x1E = ((i % 64) >>> 1) &&& 0x1E :=
      shr_and_mod i 1 0x1E 5 6 (by decide) (by decide)
    have h3 : i &&& 2 = (i % 64) &&& 2 := and_low_mod i 2 6 (by decide)
    have hr : i % 64 < 64 := Nat.mod_lt _ (by decide)
    have key : ∀ r, r < 64 →
        (((r ^^^ 1) &&& 1) ||| ((r >>> 1) &&& 0x1E) ||| (((r &&& 2) ^^^ 2) <<< 4)) < 2 ^ 6 ∧
        spr_convert_dbl_idx r =
          (((r ^^^ 1) &&& 1) ||| ((r >>> 1) &&& 0x1E) ||| (((r &&& 2) ^^^ 2) <<< 4)) := by
      decide
    obtain ⟨k1, k2⟩ := key (i % 64) hr
    rw [k2]
    unfold spr_convert_dbl_idx
    rw [hM, h1, h2, h3, Nat.or_assoc, Nat.or_assoc, ← Nat.or_assoc (((i % 64) ^^^ 1) &&& 1)]
    exact (Nat.mul_add_lt_is_or k1 (i / 64)).symm
  · decide

theorem spr_convert_dbl_inverse_idx_blockMap : BlockMap 64 spr_convert_dbl_inverse_idx := by
  constructor
  · intro i hi
    have hM : i &&& MASK_3F = 64 * (i / 64) := and_block_mask i 6 (by decide) hi
    have h1 : (i ^^^ 1) &&& 1 = ((i % 64) ^^^ 1) &&& 1 := xor_one_and_one_mod i 6 (by decide)
    have h2 : i &&& 0x1E = (i % 64) &&& 0x1E := and_low_mod i 0x1E 6 (by decide)
    have h3 : (i >>> 5) &&& 1 = ((i % 64) >>> 5) &&& 1 :=
      shr_and_mod i 5 1 1 6 (by decide) (by decide)
    have hr : i % 64 < 64 := Nat.mod_lt _ (by decide)
    have key : ∀ r, r < 64 →
        (((r ^^^ 1) &&& 1) ||| ((r &&& 0x1E) <<< 1) ||| ((((r >>> 5) &&& 1) ^^^ 1) <<< 1))
          < 2 ^ 6 ∧
        spr_convert_dbl_inverse_idx r =
          (((r ^^^ 1) &&& 1) ||| ((r &&& 0x1E) <<< 1) ||| ((((r >>> 5) &&& 1) ^^^ 1) <<< 1)) := by
      decide
    obtain ⟨k1, k2⟩ := key (i % 64) hr
    rw [k2]
    unfold spr_convert_dbl_inverse_idx
    rw [hM, h1, h2, h3, Nat.or_assoc, Nat.or_assoc,
      ← Nat.or_assoc (((i % 64) ^^^ 1) &&& 1)]
    exact (Nat.mul_add_lt_is_or k1 (i / 64)).symm
  · decide

theorem fix_convert_idx_blockMap : BlockMap 32 fix_convert_idx := by
  constructor
  · intro i hi
    have hM : i &&& MASK_1F = 32 * (i / 32) := and_block_mask i 5 (by decide) hi
    have h1 : (i >>> 2) &&& 7 = ((i % 32) >>> 2) &&& 7 :=
      shr_and_mod i 2 7 3 5 (by decide) (by decide)
    have h2 : i &&& 1 = (i % 32) &&& 1 := and_low_mod i 1 5 (by decide)
    have h3 : i &&& 2 = (i % 32) &&& 2 := and_low_mod i 2 5 (by decide)
    have hr : i % 32 < 32 := Nat.mod_lt _ (by decide)
    have key : ∀ r, r < 32 →
        (((r >>> 2) &&& 7) ||| ((r &&& 1) <<< 3) ||| (((r &&& 2) <<< 3) ^^^ 0x10)) < 2 ^ 5 ∧
        fix_convert_idx r =
          (((r >>> 2) &&& 7) ||| ((r &&& 1) <<< 3) ||| (((r &&& 2) <<< 3) ^^^ 0x10)) := by
      decide
    obtain ⟨k1, k2⟩ := key (i % 32) hr
    rw [k2]
    unfold fix_convert_idx
    rw [hM, h1, h2, h3, Nat.or_assoc, Nat.or_assoc, ← Nat.or_assoc (((i % 32) >>> 2) &&& 7)]
    exact (Nat.mul_add_lt_is_or k1 (i / 32)).symm
  · decide

theorem fix_convert_inverse_idx_blockMap : BlockMap 32 fix_convert_inverse_idx := by
  constructor
  · intro i hi
    have hM : i &&& MASK_1F = 32 * (i / 32) := and_block_mask i 5 (by decide) hi
    have h1 : i &&& 7 = (i % 32) &&& 7 := and_low_mod i 7 5 (by decide)
    have h2 : (i >>> 3) &&& 1 = ((i % 32) >>> 3) &&& 1 :=
      shr_and_mod i 3 1 1 5 (by decide) (by decide)
    have h3 : (i >>> 4) &&& 1 = ((i % 32) >>> 4) &&& 1 :=
      shr_and_mod i 4 1 1 5 (by decide) (by decide)
    have hr : i % 32 < 32 := Nat.mod_lt _ (by decide)
    have key : ∀ r, r < 32 →
        (((r &&& 7) <<< 2) ||| ((r >>> 3) &&& 1) ||| ((((r >>> 4) &&& 1) ^^^ 1) <<< 1)) < 2 ^ 5 ∧
        fix_convert_inverse_idx r =
          (((r &&& 7) <<< 2) ||| ((r >>> 3) &&& 1) ||| ((((r >>> 4) &&& 1) ^^^ 1) <<< 1)) := by
      decide
    obtain ⟨k1, k2⟩ := key (i % 32) hr
    rw [k2]
    unfold fix_convert_inverse_idx
    rw [hM, h1, h2, h3, Nat.or_assoc, Nat.or_assoc, ← Nat.or_assoc (((i % 32) &&& 7) <<< 2)]
    exact (Nat.mul_add_lt_is_or k1 (i / 32)).symm
  · decide

theorem length_convert_loop (idx : Nat → Nat) (buf : List Nat) (n : Nat) :
    (convert_loop idx buf n).length = n := by
  simp [convert_loop]

theorem getD_convert_loop (idx : Nat → Nat) (buf : List Nat) (n i : Nat) (hi : i < n) :
    (convert_loop idx buf n).getD i 0 = buf.getD (idx i) 0 := by
  simp [convert_loop, List.getD_eq_getElem?_getD, List.getElem?_map, List.getElem?_range hi]

theorem convert_loop_roundtrip {B : Nat} {F G : Nat → Nat} (hF : BlockMap B F)
    (hG : BlockMap B G) (hB : 0 < B) (hdvd : 2 ^ 32 % B = 0)
    (hlow : ∀ r, r < B → G (F r) = r) (x : List Nat) (hx : x.length % B = 0)
    (h32 : x.length < 2 ^ 32) :
    convert_loop F (convert_loop G x x.length) x.length = x := by
  apply List.ext_getElem
  · simp [length_convert_loop]
  · intro i h1 h2
    have hi32 : i < 2 ^ 32 := lt_trans h2 h32
    have hFi : F i < x.length := hF.lt_of_lt hB x.length i hx hi32 h2
    have e1 := getD_convert_loop F (convert_loop G x x.length) x.length i h2
    rw [getD_convert_loop G x x.length (F i) hFi, hF.left_inv hG hB hdvd hlow i hi32] at e1
    rw [List.getD_eq_getElem _ _ h1, List.getD_eq_getElem _ _ h2] at e1
    exact e1

theorem convert_loop_perm {B : Nat} {F G : Nat → Nat} (hF : BlockMap B F)
    (hG : BlockMap B G) (hB : 0 < B) (hdvd : 2 ^ 32 % B = 0)
    (hGF : ∀ r, r < B → G (F r) = r) (hFG : ∀ r, r < B → F (G r) = r)
    (x : List Nat) (hx : x.length % B = 0) (h32 : x.length < 2 ^ 32) :
    List.Perm (convert_loop F x x.length) x := by
  have hmap : convert_loop F x x.length =
      ((List.range x.length).map F).map (fun k => x.getD k 0) := by
    simp [convert_loop, List.map_map, Function.comp_def]
  have hid : (List.range x.length).map (fun k => x.getD k 0) = x := by
    apply List.ext_getElem
    · simp
    · intro i h1 h2
      simp [List.getElem?_eq_getElem h2]
  have hperm : List.Perm ((List.range x.length).map F) (List.range x.length) := by
    rw [List.perm_ext_iff_of_nodup]
    · intro a
      simp only [List.mem_map, List.mem_range]
      constructor
      · rintro ⟨i, hi, rfl⟩
        exact hF.lt_of_lt hB x.length i hx (lt_trans hi h32) hi
      · intro ha
        exact ⟨G a, hG.lt_of_lt hB x.length a hx (lt_trans ha h32) ha,
          hG.left_inv hF hB hdvd hFG a (lt_trans ha h32)⟩
    · apply List.Nodup.map_on _ (List.nodup_range _)
      intro i hi j hj hij
      rw [List.mem_range] at hi hj
      rw [← hF.left_inv hG hB hdvd hGF i (lt_trans hi h32),
        ← hF.left_inv hG hB hdvd hGF j (lt_trans hj h32), hij]
    · exact List.nodup_range _
  rw [hmap]
  conv_rhs => rw [← hid]
  exact hperm.map _

/-- C1: for each of `spr_convert` (blocks of 32 words), `spr_convert_dbl`
(blocks of 64 words) and `fix_convert` (blocks of 32 bytes) the source
index of every output index `i` lies in the aligned block of `i`, the index
map is injective and maps each block onto itself, and on every buffer whose
length is a multiple of the block size the converter is a permutation of the
elements, undone by the inverse index map in both directions. -/
theorem tile_converters_permute_blocks (i : Nat) (hi : i < 2 ^ 32) (xs xd xf : List Nat)
    (hs : xs.length % 32 = 0) (hs32 : xs.length < 2 ^ 32)
    (hd : xd.length % 64 = 0) (hd32 : xd.length < 2 ^ 32)
    (hf : xf.length % 32 = 0) (hf32 : xf.length < 2 ^ 32) :
    (spr_convert_idx i / 32 = i / 32 ∧ spr_convert_dbl_idx i / 64 = i / 64 ∧
      fix_convert_idx i / 32 = i / 32) ∧
    (∀ j, j < 2 ^ 32 →
      (spr_convert_idx i = spr_convert_idx j → i = j) ∧
      (spr_convert_dbl_idx i = spr_convert_dbl_idx j → i = j) ∧
      (fix_convert_idx i = fix_convert_idx j → i = j)) ∧
    ((∃ k, k / 32 = i / 32 ∧ spr_convert_idx k = i) ∧
      (∃ k, k / 64 = i / 64 ∧ spr_convert_dbl_idx k = i) ∧
      (∃ k, k / 32 = i / 32 ∧ fix_convert_idx k = i)) ∧
    (spr_convert (spr_convert_inverse xs xs.length) xs.length = xs ∧
      spr_convert_inverse (spr_convert xs xs.length) xs.length = xs ∧
      List.Perm (spr_convert xs xs.length) xs) ∧
    (spr_convert_dbl (spr_convert_dbl_inverse xd xd.length) xd.length = xd ∧
      spr_convert_dbl_inverse (spr_convert_dbl xd xd.length) xd.length = xd ∧
      List.Perm (spr_convert_dbl xd xd.length) xd) ∧
    (fix_convert (fix_convert_inverse xf xf.length) xf.length = xf ∧
      fix_convert_inverse (fix_convert xf xf.length) xf.length = xf ∧
      List.Perm (fix_convert xf xf.length) xf) := by
  have sB := spr_convert_idx_blockMap
  have sI := spr_convert_inverse_idx_blockMap
  have dB := spr_convert_dbl_idx_blockMap
  have dI := spr_convert_dbl_inverse_idx_blockMap
  have fB := fix_convert_idx_blockMap
  have fI := fix_convert_inverse_idx_blockMap
  have s1 : ∀ r, r < 32 → spr_convert_inverse_idx (spr_convert_idx r) = r := by decide
  have s2 : ∀ r, r < 32 → spr_convert_idx (spr_convert_inverse_idx r) = r := by decide
  have d1 : ∀ r, r < 64 → spr_convert_dbl_inverse_idx (spr_convert_dbl_idx r) = r := by decide
  have d2 : ∀ r, r < 64 → spr_convert_dbl_idx (spr_convert_dbl_inverse_idx r) = r := by decide
  have f1 : ∀ r, r < 32 → fix_convert_inverse_idx (fix_convert_idx r) = r := by decide
  have f2 : ∀ r, r < 32 → fix_convert_idx (fix_convert_inverse_idx r) = r := by decide
  have p32 : 0 < 32 := by decide
  have p64 : 0 < 64 := by decide
  have m32 : 2 ^ 32 % 32 = 0 := by decide
  have m64 : 2 ^ 32 % 64 = 0 := by decide
  refine ⟨⟨sB.div_eq p32 i hi, dB.div_eq p64 i hi, fB.div_eq p32 i hi⟩, ?_, ⟨?_, ?_, ?_⟩,
    ⟨?_, ?_, ?_⟩, ⟨?_, ?_, ?_⟩, ⟨?_, ?_, ?_⟩⟩
  · intro j hj
    refine ⟨fun h => ?_, fun h => ?_, fun h => ?_⟩
    · rw [← sB.left_inv sI p32 m32 s1 i hi, ← sB.left_inv sI p32 m32 s1 j hj, h]
    · rw [← dB.left_inv dI p64 m64 d1 i hi, ← dB.left_inv dI p64 m64 d1 j hj, h]
    · rw [← fB.left_inv fI p32 m32 f1 i hi, ← fB.left_inv fI p32 m32 f1 j hj, h]
  · exact ⟨_, sI.div_eq p32 i hi, sI.left_inv sB p32 m32 s2 i hi⟩
  · exact ⟨_, dI.div_eq p64 i hi, dI.left_inv dB p64 m64 d2 i hi⟩
  · exact ⟨_, fI.div_eq p32 i hi, fI.left_inv fB p32 m32 f2 i hi⟩
  · exact convert_loop_roundtrip sB sI p32 m32 s1 xs hs hs32
  · exact convert_loop_roundtrip sI sB p32 m32 s2 xs hs hs32
  · exact convert_loop_perm sB sI p32 m32 s1 s2 xs hs hs32
  · exact convert_loop_roundtrip dB dI p64 m64 d1 xd hd hd32
  · exact convert_loop_roundtrip dI dB p64 m64 d2 xd hd hd32
  · exact convert_loop_perm dB dI p64 m64 d1 d2 xd hd hd32
  · exact convert_loop_roundtrip fB fI p32 m32 f1 xf hf hf32
  · exact convert_loop_roundtrip fI fB p32 m32 f2 xf hf hf32
  · exact convert_loop_perm fB fI p32 m32 f1 f2 xf hf hf32

/-- C2: `fix_convert` on one 32-byte block holding the bytes `0..31` yields
at every position `i` the byte given by the index formula; row `r` of the
tile reads `0x10+r, 0x18+r, 0x00+r, 0x08+r`, the layout of the comment in
`fix_convert`. -/
theorem fix_convert_single_block :
    fix_convert (List.range 32) 32 =
        (List.range 32).map (fun i =>
          (i &&& 0xFFFFFFE0) ||| ((i >>> 2) &&& 7) ||| ((i &&& 1) <<< 3) |||
            (((i &&& 2) <<< 3) ^^^ 0x10)) ∧
      fix_convert (List.range 32) 32 =
        (List.range 8).flatMap (fun r => [0x10 + r, 0x18 + r, 0x00 + r, 0x08 + r]) ∧
      fix_convert (List.range 32) 32 =
        [0x10, 0x18, 0x00, 0x08, 0x11, 0x19, 0x01, 0x09, 0x12, 0x1A, 0x02, 0x0A,
         0x13, 0x1B, 0x03, 0x0B, 0x14, 0x1C, 0x04, 0x0C, 0x15, 0x1D, 0x05, 0x0D,
         0x16, 0x1E, 0x06, 0x0E, 0x17, 0x1F, 0x07, 0x0F] := by
  refine ⟨by decide, by decide, by decide⟩


/-- Witness of C1 at index 37 and the buffers `0..31`, `0..63`, `0..31`. -/
theorem tile_converters_permute_blocks_witness :
    (37 < 2 ^ 32 ∧ (List.range 32).length % 32 = 0 ∧ (List.range 64).length % 64 = 0) ∧
    spr_convert_idx 37 / 32 = 37 / 32 ∧
    spr_convert (spr_convert_inverse (List.range 32) (List.range 32).length)
      (List.range 32).length = List.range 32 ∧
    List.Perm (spr_convert_dbl (List.range 64) (List.range 64).length) (List.range 64) ∧
    fix_convert_inverse (fix_convert (List.range 32) (List.range 32).length)
      (List.range 32).length = List.range 32 :=
  have h := tile_converters_permute_blocks 37 (by decide) (List.range 32) (List.range 64)
    (List.range 32) (by decide) (by decide) (by decide) (by decide) (by decide) (by decide)
  ⟨⟨by decide, by decide, by decide⟩, h.1.1, h.2.2.2.1.1, h.2.2.2.2.1.2.2, h.2.2.2.2.2.2.1⟩
/-! ## The loops do not depend on the fuel -/

theorem file_tx_loop_fuel (name : CStr) (type : neo_file_type) (index size : Nat) (f1 : Nat) :
    ∀ (f2 bytes2send : Nat) (progress : Int), bytes2send ≤ f1 → bytes2send ≤ f2 →
      file_tx_loop name type index size f1 bytes2send progress =
        file_tx_loop name type index size f2 bytes2send progress := by
  induction f1 with
  | zero =>
    intro f2 b p h1 _
    have hb : b = 0 := by omega
    subst hb
    cases f2 with
    | zero => rfl
    | succ n => simp [file_tx_loop]
  | succ n ih =>
    intro f2 b p h1 h2
    cases f2 with
    | zero =>
      have hb : b = 0 := by omega
      subst hb
      simp [file_tx_loop]
    | succ m =>
      unfold file_tx_loop
      by_cases h0 : b = 0
      · rw [if_pos h0, if_pos h0]
      · rw [if_neg h0, if_neg h0]
        have hc : 0 < (if b > CHUNK then CHUNK else b) := by
          unfold CHUNK; split_ifs <;> omega
        simp only []
        rw [ih m _ _ (by omega) (by omega)]

theorem load_crom_loop_fuel (sys : Sys) (name : CStr) (size : Nat) (f1 : Nat) :
    ∀ (f2 remain map_addr : Nat) (progress : Int), remain ≤ f1 → remain ≤ f2 →
      load_crom_loop sys name size f1 remain map_addr progress =
        load_crom_loop sys name size f2 remain map_addr progress := by
  induction f1 with
  | zero =>
    intro f2 b a p h1 _
    have hb : b = 0 := by omega
    subst hb
    cases f2 with
    | zero => rfl
    | succ n => simp [load_crom_loop]
  | succ n ih =>
    intro f2 b a p h1 h2
    cases f2 with
    | zero =>
      have hb : b = 0 := by omega
      subst hb
      simp [load_crom_loop]
    | succ m =>
      unfold load_crom_loop
      by_cases h0 : b = 0
      · rw [if_pos h0, if_pos h0]
      · rw [if_neg h0, if_neg h0]
        have hc : 0 < (if b > MiB then MiB else b) := by
          unfold MiB; split_ifs <;> omega
        simp only []
        rw [ih m _ _ _ (by omega) (by omega)]

theorem load_rom_loop_fuel (sys : Sys) (name : CStr) (type : neo_file_type)
    (size remainf : Nat) (f1 : Nat) :
    ∀ (f2 remain map_addr : Nat) (progress : Int), remain ≤ f1 → remain ≤ f2 →
      load_rom_loop sys name type size remainf f1 remain map_addr progress =
        load_rom_loop sys name type size remainf f2 remain map_addr progress := by
  induction f1 with
  | zero =>
    intro f2 b a p h1 _
    have hb : b = 0 := by omega
    subst hb
    cases f2 with
    | zero => rfl
    | succ n => simp [load_rom_loop]
  | succ n ih =>
    intro f2 b a p h1 h2
    cases f2 with
    | zero =>
      have hb : b = 0 := by omega
      subst hb
      simp [load_rom_loop]
    | succ m =>
      unfold load_rom_loop
      by_cases h0 : b = 0
      · rw [if_pos h0, if_pos h0]
      · rw [if_neg h0, if_neg h0]
        have hc : 0 < (if b > MiB then MiB else b) := by
          unfold MiB; split_ifs <;> omega
        simp only []
        rw [ih m _ _ _ (by omega) (by omega)]

/-! ## Command-channel transfer -/

theorem notifications_append (a b : List Effect) :
    notifications (a ++ b) = notifications a ++ notifications b := by
  simp [notifications, List.filterMap_append]

theorem notifications_progress (c : Prop) [Decidable c] (name : CStr) (p : Int) :
    notifications (if c then [Effect.osd_progress name p] else []) = [] := by
  split <;> rfl

theorem notifications_load_crom_loop (sys : Sys) (name : CStr) (size fuel : Nat) :
    ∀ remain map_addr progress,
      notifications (load_crom_loop sys name size fuel remain map_addr progress).2 = [] := by
  induction fuel with
  | zero => intro _ _ _; rfl
  | succ n ih =>
    intro remain map_addr progress
    unfold load_crom_loop
    by_cases h0 : remain = 0
    · rw [if_pos h0]; rfl
    · rw [if_neg h0]
      by_cases hm : sys.mmap_ok map_addr (if remain > MiB then MiB else remain) = false
      · simp only [hm, if_true]; rfl
      · simp only [hm, if_false]
        show notifications (_ ++ _) = []
        rw [notifications_append, notifications_progress, ih]
        rfl

theorem notifications_load_rom_loop (sys : Sys) (name : CStr) (type : neo_file_type)
    (size remainf fuel : Nat) :
    ∀ remain map_addr progress,
      notifications (load_rom_loop sys name type size remainf fuel remain map_addr progress).2
        = [] := by
  induction fuel with
  | zero => intro _ _ _; rfl
  | succ n ih =>
    intro remain map_addr progress
    unfold load_rom_loop
    by_cases h0 : remain = 0
    · rw [if_pos h0]; rfl
    · rw [if_neg h0]
      by_cases hm : sys.mmap_ok map_addr (if remain > MiB then MiB else remain) = false
      · simp only [hm, if_true]; rfl
      · simp only [hm, if_false]
        show notifications (_ ++ _) = []
        rw [notifications_append, notifications_progress, ih]
        rfl

theorem notifications_load_crom_to_mem (sys : Sys) (path name : CStr) (index offset size : Nat) :
    notifications (load_crom_to_mem sys path name index offset size).2 = [] := by
  unfold load_crom_to_mem
  cases hF : sys.FileOpen (path_join path name) with
  | none => rfl
  | some fsize =>
    by_cases h0 : resolve_size fsize offset size = 0
    · simp [h0, notifications]
    · by_cases hd : sys.dev_mem = false
      · simp [h0, hd, notifications]
      · simp only [h0, hd, if_false]
        have := notifications_load_crom_loop sys name (resolve_size fsize offset size * 2 % 2 ^ 32)
          (resolve_size fsize offset size * 2 % 2 ^ 32)
          (resolve_size fsize offset size * 2 % 2 ^ 32)
          (to_uint32 (0x38000000 + (((index : Int) - 64) / 2) * 1024 * 1024)) (-1)
        revert this
        generalize load_crom_loop sys name (resolve_size fsize offset size * 2 % 2 ^ 32)
          (resolve_size fsize offset size * 2 % 2 ^ 32)
          (resolve_size fsize offset size * 2 % 2 ^ 32)
          (to_uint32 (0x38000000 + (((index : Int) - 64) / 2) * 1024 * 1024)) (-1) = r
        obtain ⟨a, es⟩ := r
        cases a <;> exact id

theorem notifications_load_rom_to_mem (sys : Sys) (path name : CStr) (type : neo_file_type)
    (index offset size expand : Nat) :
    notifications (load_rom_to_mem sys path name type index offset size expand).2 = [] := by
  unfold load_rom_to_mem
  cases hF : sys.FileOpen (path_join path name) with
  | none => rfl
  | some fsize =>
    by_cases h0 : resolve_size fsize offset size = 0
    · simp [h0, notifications]
    · by_cases hd : sys.dev_mem = false
      · simp [h0, hd, notifications]
      · simp only [h0, hd, if_false]
        generalize (if expand ≠ 0 then expand else resolve_size fsize offset size) = sz
        have := notifications_load_rom_loop sys name type sz (resolve_size fsize offset size)
          sz sz (load_rom_map_addr index) (-1)
        revert this
        generalize load_rom_loop sys name type sz (resolve_size fsize offset size)
          sz sz (load_rom_map_addr index) (-1) = r
        obtain ⟨a, es⟩ := r
        cases a <;> exact id

theorem foldl_max_ge (l : List Nat) : ∀ c, c ≤ l.foldl max c := by
  induction l with
  | nil => intro c; exact le_refl c
  | cons a t ih => intro c; exact le_trans (le_max_left c a) (ih (max c a))

theorem foldl_max_ge_of_mem (l : List Nat) : ∀ c x, x ∈ l → x ≤ l.foldl max c := by
  induction l with
  | nil => intro c x hx; cases hx
  | cons a t ih =>
    intro c x hx
    rcases List.mem_cons.1 hx with rfl | hx
    · exact le_trans (le_max_right c x) (foldl_max_ge t (max c x))
    · exact ih (max c a) x hx

theorem neogeo_tx_extended (sys : Sys) (c : Nat) (q : TxReq) (h : 64 ≤ to_int8 q.index) :
    (neogeo_tx sys c q).2.1 = max c (crom_size sys q) ∧
      notifications (neogeo_tx sys c q).2.2 = [] := by
  unfold neogeo_tx
  simp only [ge_iff_le, h, if_true]
  constructor
  · show (if crom_size sys q > c then crom_size sys q else c) = max c (crom_size sys q)
    split_ifs with hc
    · exact (max_eq_right (le_of_lt hc)).symm
    · exact (max_eq_left (not_lt.1 hc)).symm
  · show notifications (Effect.call_neogeo_tx q :: _) = []
    exact notifications_load_crom_to_mem sys q.path q.name _ q.offset q.size

theorem neogeo_tx_seq_extended (sys : Sys) (rs : List TxReq) :
    ∀ c, (∀ q ∈ rs, 64 ≤ to_int8 q.index) →
      (neogeo_tx_seq sys c rs).1 = (rs.map (crom_size sys)).foldl max c ∧
        notifications (neogeo_tx_seq sys c rs).2 = [] := by
  induction rs with
  | nil => intro c _; exact ⟨rfl, rfl⟩
  | cons q t ih =>
    intro c h
    have hq := neogeo_tx_extended sys c q (h q (List.mem_cons_self q t))
    have ht := ih (neogeo_tx sys c q).2.1 (fun x hx => h x (List.mem_cons_of_mem q hx))
    constructor
    · show (neogeo_tx_seq sys (neogeo_tx sys c q).2.1 t).1 = _
      rw [ht.1, hq.1]; rfl
    · show notifications ((neogeo_tx sys c q).2.2 ++ (neogeo_tx_seq sys (neogeo_tx sys c q).2.1 t).2)
        = []
      rw [notifications_append, hq.2, ht.2]; rfl

theorem neogeo_tx_seq_append (sys : Sys) (rs : List TxReq) (r : TxReq) :
    ∀ c, neogeo_tx_seq sys c (rs ++ [r]) =
      ((neogeo_tx sys (neogeo_tx_seq sys c rs).1 r).2.1,
        (neogeo_tx_seq sys c rs).2 ++ (neogeo_tx sys (neogeo_tx_seq sys c rs).1 r).2.2) := by
  induction rs with
  | nil => intro c; simp [neogeo_tx_seq]
  | cons q t ih =>
    intro c
    show ((neogeo_tx_seq sys (neogeo_tx sys c q).2.1 (t ++ [r])).1,
      (neogeo_tx sys c q).2.2 ++ (neogeo_tx_seq sys (neogeo_tx sys c q).2.1 (t ++ [r])).2) = _
    rw [ih]
    simp only [neogeo_tx_seq, List.append_assoc]

theorem neogeo_tx_flush (sys : Sys) (c : Nat) (r : TxReq) (hc : c ≠ 0)
    (h0 : 0 ≤ to_int8 r.index) (h1 : to_int8 r.index < 64) :
    (neogeo_tx sys c r).2.1 = 0 ∧
      notifications (neogeo_tx sys c r).2.2 =
        (15, c) :: (if rom_size sys r ≠ 0 then [((to_int8 r.index).toNat, rom_size sys r)]
          else []) := by
  have h64 : ¬ (to_int8 r.index ≥ 64) := by omega
  unfold neogeo_tx
  rw [if_neg h64, if_pos h0, if_pos hc]
  refine ⟨rfl, ?_⟩
  have e : notifications (Effect.call_neogeo_tx r :: (notify_core 15 c ++
      (load_rom_to_mem sys r.path r.name r.neo_file_type (to_int8 r.index).toNat r.offset r.size
        r.expand).2 ++
      (if rom_size sys r ≠ 0 then notify_core (to_int8 r.index).toNat (rom_size sys r) else []))) =
      (15, c) :: (if rom_size sys r ≠ 0 then [((to_int8 r.index).toNat, rom_size sys r)]
          else []) := by
    show notifications (notify_core 15 c ++ _ ++ _) = _
    rw [notifications_append, notifications_append, notifications_load_rom_to_mem]
    split_ifs <;> rfl
  exact e

/-- C4 (amended): from a cleared cursor, after calls of `neogeo_tx` with
indices of at least 64 whose graphics-window transfers return the sizes
`s1..sn`, one of them non-zero, and one more call with an index in
`[0, 64)`: no notification is sent during the extended calls, the cursor
then holds `max(s1..sn)`, the closing call sends the notification for
index 15 with that maximum first and its own notification (if its transfer
returns a non-zero size) after it, and the cursor ends at 0.  The flush is
the only notification for index 15 when the closing index is not 15 or its
transfer returns 0. -/
theorem crom_flush_order (sys : Sys) (rs : List TxReq) (r : TxReq)
    (hext : ∀ q ∈ rs, 64 ≤ to_int8 q.index)
    (hnz : ∃ q ∈ rs, crom_size sys q ≠ 0)
    (hr0 : 0 ≤ to_int8 r.index) (hr1 : to_int8 r.index < 64) :
    notifications (neogeo_tx_seq sys 0 rs).2 = [] ∧
    (neogeo_tx_seq sys 0 rs).1 = (rs.map (crom_size sys)).foldl max 0 ∧
    notifications (neogeo_tx_seq sys 0 (rs ++ [r])).2 =
      (15, (rs.map (crom_size sys)).foldl max 0) ::
        (if rom_size sys r ≠ 0 then [((to_int8 r.index).toNat, rom_size sys r)] else []) ∧
    (neogeo_tx_seq sys 0 (rs ++ [r])).1 = 0 ∧
    (to_int8 r.index ≠ 15 ∨ rom_size sys r = 0 →
      index15_notifications (notifications (neogeo_tx_seq sys 0 (rs ++ [r])).2) =
        [(15, (rs.map (crom_size sys)).foldl max 0)]) := by
  obtain ⟨hcur, hnone⟩ := neogeo_tx_seq_extended sys rs 0 hext
  have hpos : (rs.map (crom_size sys)).foldl max 0 ≠ 0 := by
    obtain ⟨q, hq, hq0⟩ := hnz
    have := foldl_max_ge_of_mem (rs.map (crom_size sys)) 0 (crom_size sys q)
      (List.mem_map_of_mem _ hq)
    omega
  have hfl := neogeo_tx_flush sys ((rs.map (crom_size sys)).foldl max 0) r hpos hr0 hr1
  have hall : notifications (neogeo_tx_seq sys 0 (rs ++ [r])).2 =
      (15, (rs.map (crom_size sys)).foldl max 0) ::
        (if rom_size sys r ≠ 0 then [((to_int8 r.index).toNat, rom_size sys r)] else []) := by
    rw [neogeo_tx_seq_append]
    show notifications (_ ++ _) = _
    rw [notifications_append, hnone, hcur, hfl.2]; rfl
  refine ⟨hnone, hcur, hall, ?_, ?_⟩
  · rw [neogeo_tx_seq_append]
    show (neogeo_tx sys (neogeo_tx_seq sys 0 rs).1 r).2.1 = 0
    rw [hcur]; exact hfl.1
  · intro h
    rw [hall]
    rcases h with h | h
    · have hne : (to_int8 r.index).toNat ≠ 15 := by omega
      split_ifs <;> simp [index15_notifications, hne]
    · simp [index15_notifications, h]

/-- Witness of C4 (amended): two extended parts of the sample environment
followed by a part for index 4. -/
theorem crom_flush_order_witness :
    notifications (neogeo_tx_seq sample_sys 0
      ([⟨"roms".toList, "c1".toList, NEO_FILE_SPR, 64, 0, 10, 0⟩,
        ⟨"roms".toList, "c2".toList, NEO_FILE_SPR, 65, 0, 20, 0⟩] ++
       [⟨"roms".toList, "p1".toList, NEO_FILE_RAW, 4, 0, 0, 0⟩])).2 =
      [(15, 40), (4, 100)] :=
  (crom_flush_order sample_sys
    [⟨"roms".toList, "c1".toList, NEO_FILE_SPR, 64, 0, 10, 0⟩,
     ⟨"roms".toList, "c2".toList, NEO_FILE_SPR, 65, 0, 20, 0⟩]
    ⟨"roms".toList, "p1".toList, NEO_FILE_RAW, 4, 0, 0, 0⟩
    (by decide) ⟨_, List.mem_cons_self _ _, by decide⟩ (by decide) (by decide)).2.2.1

/-- C4 as stated fails: when the closing part has index 15 itself and its
transfer returns a non-zero size, two notifications for index 15 are sent. -/
theorem crom_flush_two_index15_notifications :
    (∀ q ∈ [(⟨"roms".toList, "c1".toList, NEO_FILE_SPR, 64, 0, 0, 0⟩ : TxReq)],
      64 ≤ to_int8 q.index) ∧
    crom_size sample_sys ⟨"roms".toList, "c1".toList, NEO_FILE_SPR, 64, 0, 0, 0⟩ = 200 ∧
    index15_notifications (notifications (neogeo_tx_seq sample_sys 0
      ([⟨"roms".toList, "c1".toList, NEO_FILE_SPR, 64, 0, 0, 0⟩] ++
       [⟨"roms".toList, "crom0".toList, NEO_FILE_SPR, 15, 0, 0, 0⟩])).2) =
      [(15, 200), (15, 100)] := by
  refine ⟨by decide, by decide, by decide⟩
/-! ## Alias matching -/

theorem toLower_eq_comma (c : Char) (h : Char.toLower c = ',') : c = ',' := by
  unfold Char.toLower at h
  simp only [ge_iff_le] at h
  split_ifs at h with hc
  · exfalso
    have h2 : (Char.ofNat (c.toNat + 32)).toNat = (',' : Char).toNat := by rw [h]
    have h3 : (Char.ofNat (c.toNat + 32)).toNat = c.toNat + 32 := by
      have hv : (c.toNat + 32).isValidChar := by
        left; omega
      unfold Char.ofNat
      rw [dif_pos hv]
      rfl
    rw [h3] at h2
    have : (',' : Char).toNat = 44 := by decide
    omega
  · exact h

theorem toLower_comma : Char.toLower ',' = ',' := by decide

theorem comma_mem_map_toLower (s : CStr) : ',' ∈ s.map Char.toLower ↔ ',' ∈ s := by
  simp only [List.mem_map]
  constructor
  · rintro ⟨c, hc, h⟩
    rwa [toLower_eq_comma c h] at hc
  · intro h
    exact ⟨',', h, toLower_comma⟩

theorem strcasestr_found_iff (h n : CStr) :
    strcasestr_found h n = true ↔ (n.map Char.toLower) <:+: (h.map Char.toLower) := by
  unfold strcasestr_found
  rw [List.any_eq_true, List.infix_iff_prefix_suffix]
  constructor
  · rintro ⟨t, ht, hp⟩
    exact ⟨t, List.isPrefixOf_iff_prefix.1 hp, (List.mem_tails _ _).1 ht⟩
  · rintro ⟨t, hp, ht⟩
    exact ⟨t, (List.mem_tails _ _).2 ht, List.isPrefixOf_iff_prefix.2 hp⟩

theorem tokens_ne_nil (s : CStr) : tokens s ≠ [] := by
  cases s with
  | nil => simp [tokens]
  | cons c cs =>
    unfold tokens
    split_ifs
    · simp
    · split <;> simp

theorem first_token_iff (s : CStr) : ∀ t : CStr, ',' ∉ t →
    ((t ++ [',']) <+: (s ++ [',']) ↔ (tokens s).head? = some t) := by
  induction s with
  | nil =>
    intro t ht
    cases t with
    | nil => simp [tokens]
    | cons d t' =>
      have hd : d ≠ ',' := fun e => ht (e ▸ List.mem_cons_self _ _)
      simp [tokens, List.cons_prefix_cons, hd]
  | cons c s' ih =>
    intro t ht
    obtain ⟨h', ts', e⟩ := List.exists_cons_of_ne_nil (tokens_ne_nil s')
    cases t with
    | nil =>
      by_cases hc : c = ','
      · simp [tokens, hc]
      · have hc' : ¬ (',' = c) := fun e => hc e.symm
        simp [tokens, hc, hc', e, List.cons_prefix_cons]
    | cons d t' =>
      have hd : d ≠ ',' := fun e => ht (e ▸ List.mem_cons_self _ _)
      have ht' : ',' ∉ t' := fun h => ht (List.mem_cons_of_mem _ h)
      have := ih t' ht'
      rw [e] at this
      by_cases hc : c = ','
      · simp [tokens, hc, hd, List.cons_prefix_cons]
      · simp only [List.cons_append, List.cons_prefix_cons, tokens, hc, if_false, e,
          List.head?_cons, Option.some.injEq, List.cons.injEq, this]
        simp
        exact fun _ => eq_comm

theorem later_token_iff (s : CStr) (t : CStr) (ht : ',' ∉ t) :
    ((',' :: t ++ [',']) <:+: (s ++ [',']) ↔ t ∈ (tokens s).tail) := by
  induction s with
  | nil =>
    constructor
    · intro h
      have := h.length_le
      simp at this
    · intro h
      simp [tokens] at h
  | cons c s' ih =>
    obtain ⟨h', ts', e⟩ := List.exists_cons_of_ne_nil (tokens_ne_nil s')
    have hf := first_token_iff s' t ht
    rw [e] at hf ih
    rw [List.cons_append c, List.infix_cons_iff, ih]
    by_cases hc : c = ','
    · subst hc
      have e1 : tokens (',' :: s') = [] :: h' :: ts' := by simp [tokens, e]
      rw [e1]
      simp only [List.cons_append, List.cons_prefix_cons, true_and, hf, List.head?_cons,
        Option.some.injEq, List.tail_cons, List.mem_cons]
      constructor
      · rintro (h | h)
        · exact Or.inl h.symm
        · exact Or.inr h
      · rintro (h | h)
        · exact Or.inl h.symm
        · exact Or.inr h
    · have e1 : tokens (c :: s') = (c :: h') :: ts' := by simp [tokens, e, hc]
      have hc' : ¬ (',' = c) := fun e => hc e.symm
      rw [e1]
      simp [List.cons_prefix_cons, hc']

theorem token_iff_infix (s t : CStr) (ht : ',' ∉ t) :
    ((',' :: t ++ [',']) <:+: (',' :: s ++ [',']) ↔ t ∈ tokens s) := by
  obtain ⟨h', ts', e⟩ := List.exists_cons_of_ne_nil (tokens_ne_nil s)
  have hf := first_token_iff s t ht
  have hl := later_token_iff s t ht
  rw [e] at hf hl
  rw [List.cons_append ',' s, List.infix_cons_iff, hl, e]
  simp only [List.cons_append, List.cons_prefix_cons, true_and, hf, List.head?_cons,
    Option.some.injEq, List.tail_cons, List.mem_cons]
  constructor
  · rintro (h | h)
    · exact Or.inl h.symm
    · exact Or.inr h
  · rintro (h | h)
    · exact Or.inl h.symm
    · exact Or.inr h

/-- C5 (amended): `has_name` compares without regard to ASCII case.  When
the part-list name has no comma it is non-zero exactly when the two names
are equal up to case.  When it is a comma-joined alias list of at most 252
bytes and the target has no comma and at most 28 bytes, it is non-zero
exactly when the target equals, up to case, one of the comma-separated
tokens. -/
theorem has_name_iff (nameset name : CStr)
    (h : ',' ∈ nameset → nameset.length ≤ 252 ∧ name.length ≤ 28 ∧ ',' ∉ name) :
    has_name nameset name ≠ 0 ↔
      spec_name_match (nameset.map Char.toLower) (name.map Char.toLower) := by
  unfold spec_name_match
  rw [comma_mem_map_toLower]
  by_cases hc : ',' ∈ nameset
  · obtain ⟨h1, h2, h3⟩ := h hc
    have h3' : ',' ∉ name.map Char.toLower := fun hm => h3 ((comma_mem_map_toLower name).1 hm)
    have hne : name.map Char.toLower ≠ nameset.map Char.toLower := by
      intro e
      exact h3' (e ▸ (comma_mem_map_toLower nameset).2 hc)
    have e1 : snprintf (256 - 1) (',' :: nameset ++ [',']) = ',' :: nameset ++ [','] := by
      unfold snprintf
      apply List.take_of_length_le
      simp; omega
    have e2 : snprintf (32 - 1) (',' :: name ++ [',']) = ',' :: name ++ [','] := by
      unfold snprintf
      apply List.take_of_length_le
      simp; omega
    have hfound : strcasestr_found (',' :: nameset ++ [',']) (',' :: name ++ [',']) = true ↔
        name.map Char.toLower ∈ tokens (nameset.map Char.toLower) := by
      rw [strcasestr_found_iff]
      simp only [List.cons_append, List.map_cons, List.map_append, List.map_nil, toLower_comma]
      rw [← List.cons_append, ← List.cons_append]
      exact token_iff_infix _ _ h3'
    have hs : strchr_found nameset ',' = true := by
      simp [strchr_found, hc]
    unfold has_name
    rw [if_pos hs]
    show (if strcasestr_found (snprintf (256 - 1) (',' :: nameset ++ [',']))
      (snprintf (32 - 1) (',' :: name ++ [','])) = true then (1 : Int) else 0) ≠ 0 ↔ _
    rw [e1, e2]
    constructor
    · intro hn
      refine Or.inr ⟨hc, hfound.1 ?_⟩
      by_contra hf
      rw [if_neg hf] at hn
      exact hn rfl
    · rintro (hx | ⟨_, hx⟩)
      · exact absurd hx hne
      · rw [if_pos (hfound.2 hx)]
        decide
  · have hs : strchr_found nameset ',' = false := by
      simp [strchr_found, hc]
    unfold has_name
    simp only [hs, Bool.false_eq_true, if_false, strcasecmp_zero]
    constructor
    · intro hn
      left
      by_contra hf
      have : (List.map Char.toLower nameset == List.map Char.toLower name) = false := by
        simp; exact fun e => hf e.symm
      simp [this] at hn
    · rintro (hx | ⟨hx, _⟩)
      · simp [hx]
      · exact absurd hx hc

/-- Witness of C5 (amended): the alias list `foo,bar` of the specification
matches `foo` and `BAR`, and neither `foob` nor `barx`. -/
theorem has_name_iff_witness :
    has_name "foo,bar".toList "foo".toList ≠ 0 ∧
    has_name "foo,bar".toList "BAR".toList ≠ 0 ∧
    ¬ has_name "foo,bar".toList "foob".toList ≠ 0 ∧
    ¬ has_name "foo,bar".toList "barx".toList ≠ 0 :=
  ⟨(has_name_iff "foo,bar".toList "foo".toList (by decide)).2 (by decide),
   (has_name_iff "foo,bar".toList "BAR".toList (by decide)).2 (by decide),
   fun h => absurd ((has_name_iff "foo,bar".toList "foob".toList (by decide)).1 h) (by decide),
   fun h => absurd ((has_name_iff "foo,bar".toList "barx".toList (by decide)).1 h) (by decide)⟩

/-- C5 as stated fails: `has_name` is non-zero for a name that differs in
case, for a target that spans two tokens, and for a 30-byte target of which
only the first 29 bytes are compared. -/
theorem has_name_not_exact_token_match :
    (has_name "foo".toList "FOO".toList ≠ 0 ∧
      ¬ spec_name_match "foo".toList "FOO".toList) ∧
    (has_name "x,foo,bar".toList "foo,bar".toList ≠ 0 ∧
      ¬ spec_name_match "x,foo,bar".toList "foo,bar".toList) ∧
    (has_name "aaaaaaaaaaaaaaaaaaaaaaaaaaaaab,x".toList
        "aaaaaaaaaaaaaaaaaaaaaaaaaaaaac".toList ≠ 0 ∧
      ¬ spec_name_match "aaaaaaaaaaaaaaaaaaaaaaaaaaaaab,x".toList
        "aaaaaaaaaaaaaaaaaaaaaaaaaaaaac".toList) := by
  refine ⟨⟨by decide, by decide⟩, ⟨by decide, by decide⟩, ⟨by decide, by decide⟩⟩
/-! ## Validation pass -/

theorem run_sax_cons_continue {σ ε : Type} (cb : σ → XMLEvent → Option (Bool × σ × List ε))
    (e : XMLEvent) (es : List XMLEvent) (s s1 : σ) (out : List ε)
    (h : cb s e = some (true, s1, out)) :
    run_sax cb (e :: es) s =
      (run_sax cb es s1).map (fun r => (r.1, out ++ r.2.1, r.2.2)) := by
  simp only [run_sax, h]
  cases run_sax cb es s1 with
  | none => rfl
  | some r => obtain ⟨a, b, c⟩ := r; rfl

theorem run_sax_cons_stop {σ ε : Type} (cb : σ → XMLEvent → Option (Bool × σ × List ε))
    (e : XMLEvent) (es : List XMLEvent) (s s1 : σ) (out : List ε)
    (h : cb s e = some (false, s1, out)) :
    run_sax cb (e :: es) s = some (s1, out, es) := by
  simp only [run_sax, h]

theorem check_start_romsets (sys : Sys) (path romset : CStr) (st : CheckState)
    (attrs : List XMLAttribute) (hpath : strrchr_after '/' path = some romset) :
    xml_check_files sys (some path) st (XMLEvent.START_NODE ⟨"romsets".toList, attrs⟩) =
      some (true, { st with romsets := true }, []) := by
  have e1 : strcasecmp_zero "romsets".toList "romsets".toList = true := by decide
  have e2 : strcasecmp_zero "romsets".toList "romset".toList = false := by decide
  have e3 : strcasecmp_zero "romsets".toList "file".toList = false := by decide
  simp only [xml_check_files, hpath, e1, e2, e3]
  simp

theorem check_start_romset (sys : Sys) (path romset : CStr) (st : CheckState)
    (attrs : List XMLAttribute) (hpath : strrchr_after '/' path = some romset)
    (hattrs : st.romsets = true → attrs ≠ []) :
    xml_check_files sys (some path) st (XMLEvent.START_NODE ⟨"romset".toList, attrs⟩) =
      some (true,
        { st with in_correct_romset := (!st.romsets) || check_matches romset attrs }, []) := by
  have e1 : strcasecmp_zero "romset".toList "romsets".toList = false := by decide
  have e2 : strcasecmp_zero "romset".toList "romset".toList = true := by decide
  have e3 : strcasecmp_zero "romset".toList "file".toList = false := by decide
  cases hr : st.romsets with
  | false =>
    simp only [xml_check_files, hpath, e1, e2, e3]
    simp [hr]
  | true =>
    cases attrs with
    | nil => exact absurd rfl (hattrs hr)
    | cons a rest =>
      by_cases hn : has_name a.value romset = 0
      · simp only [xml_check_files, hpath, e1, e2, e3]
        simp [hr, check_matches, hn]
      · simp only [xml_check_files, hpath, e1, e2, e3]
        simp [hr, check_matches, hn]

theorem check_start_file (sys : Sys) (path romset : CStr) (st : CheckState)
    (attrs : List XMLAttribute) (hpath : strrchr_after '/' path = some romset) :
    xml_check_files sys (some path) st (XMLEvent.START_NODE ⟨"file".toList, attrs⟩) =
      if st.in_correct_romset = true then
        some ((check_file_attributes sys path attrs).1, st,
          (check_file_attributes sys path attrs).2)
      else some (true, st, []) := by
  have e1 : strcasecmp_zero "file".toList "romsets".toList = false := by decide
  have e2 : strcasecmp_zero "file".toList "romset".toList = false := by decide
  have e3 : strcasecmp_zero "file".toList "file".toList = true := by decide
  simp only [xml_check_files, hpath, e1, e2, e3]
  cases hr : st.in_correct_romset <;> simp [hr]

theorem check_end_file (sys : Sys) (path romset : CStr) (st : CheckState)
    (attrs : List XMLAttribute) (hpath : strrchr_after '/' path = some romset) :
    xml_check_files sys (some path) st (XMLEvent.END_NODE ⟨"file".toList, attrs⟩) =
      some (true, st, []) := by
  have e1 : strcasecmp_zero "file".toList "romsets".toList = false := by decide
  have e2 : strcasecmp_zero "file".toList "romset".toList = false := by decide
  simp only [xml_check_files, hpath, e1, e2]
  simp

theorem check_end_romset (sys : Sys) (path romset : CStr) (st : CheckState)
    (attrs : List XMLAttribute) (hpath : strrchr_after '/' path = some romset) :
    xml_check_files sys (some path) st (XMLEvent.END_NODE ⟨"romset".toList, attrs⟩) =
      if st.in_correct_romset = true then some (false, { st with checked_ok := true }, [])
      else some (true, st, []) := by
  have e1 : strcasecmp_zero "romset".toList "romsets".toList = false := by decide
  have e2 : strcasecmp_zero "romset".toList "romset".toList = true := by decide
  simp only [xml_check_files, hpath, e1, e2]
  cases hr : st.in_correct_romset <;> simp [hr]

theorem check_file_attributes_found (sys : Sys) (path : CStr) (attrs : List XMLAttribute)
    (h : ∀ p, checked_path path attrs = some p → sys.FileExists p = true) :
    check_file_attributes sys path attrs =
      (true, ((checked_path path attrs).toList).map Effect.file_exists) := by
  induction attrs with
  | nil => rfl
  | cons a rest ih =>
    unfold check_file_attributes checked_path
    unfold checked_path at h
    by_cases hn : strcasecmp_zero a.name "name".toList = true
    · rw [if_pos hn] at h
      rw [if_pos hn, if_pos hn, if_pos (h _ rfl)]
      rfl
    · rw [if_neg hn] at h
      rw [if_neg hn, if_neg hn]
      exact ih h

theorem check_file_attributes_missing (sys : Sys) (path : CStr) (attrs : List XMLAttribute)
    (p : CStr) (h : checked_path path attrs = some p) (hm : sys.FileExists p = false) :
    (check_file_attributes sys path attrs).1 = false ∧
      existence_checks (check_file_attributes sys path attrs).2 = [p] := by
  induction attrs with
  | nil => cases h
  | cons a rest ih =>
    unfold check_file_attributes
    unfold checked_path at h
    by_cases hn : strcasecmp_zero a.name "name".toList = true
    · rw [if_pos hn] at h
      cases h
      have hm' : ¬ (sys.FileExists (path_join path a.value) = true) := by simp [hm]
      rw [if_pos hn, if_neg hm']
      exact ⟨rfl, rfl⟩
    · rw [if_neg hn] at h
      rw [if_neg hn]
      exact ih h

theorem existence_checks_append (a b : List Effect) :
    existence_checks (a ++ b) = existence_checks a ++ existence_checks b := by
  simp [existence_checks, List.filterMap_append]

theorem existence_checks_map (ps : List CStr) :
    existence_checks (ps.map Effect.file_exists) = ps := by
  induction ps with
  | nil => rfl
  | cons p t ih =>
    show p :: existence_checks (t.map Effect.file_exists) = p :: t
    rw [ih]

theorem prepend_nil {σ ε : Type} (o : Option (σ × List ε × List XMLEvent)) :
    o.map (fun r => (r.1, [] ++ r.2.1, r.2.2)) = o := by
  cases o with
  | none => rfl
  | some r => rfl

theorem prepend_prepend {σ ε : Type} (a b : List ε) (o : Option (σ × List ε × List XMLEvent)) :
    (o.map (fun r => (r.1, b ++ r.2.1, r.2.2))).map (fun r => (r.1, a ++ r.2.1, r.2.2)) =
      o.map (fun r => (r.1, (a ++ b) ++ r.2.1, r.2.2)) := by
  cases o with
  | none => rfl
  | some r => simp

theorem check_skip_files (sys : Sys) (path romset : CStr) (st : CheckState)
    (hpath : strrchr_after '/' path = some romset) (hst : st.in_correct_romset = false)
    (files : List (List XMLAttribute)) (tail : List XMLEvent) :
    run_sax (xml_check_files sys (some path)) (files.flatMap file_events ++ tail) st =
      run_sax (xml_check_files sys (some path)) tail st := by
  induction files with
  | nil => rfl
  | cons f t ih =>
    have h1 := check_start_file sys path romset st f hpath
    have h2 := check_end_file sys path romset st f hpath
    have hne : ¬ (st.in_correct_romset = true) := by simp [hst]
    rw [if_neg hne] at h1
    show run_sax _ (XMLEvent.START_NODE ⟨"file".toList, f⟩ ::
      XMLEvent.END_NODE ⟨"file".toList, f⟩ :: (t.flatMap file_events ++ tail)) st = _
    rw [run_sax_cons_continue _ _ _ _ _ _ h1, run_sax_cons_continue _ _ _ _ _ _ h2, ih,
      prepend_nil, prepend_nil]

theorem check_pass_files (sys : Sys) (path romset : CStr) (st : CheckState)
    (hpath : strrchr_after '/' path = some romset) (hst : st.in_correct_romset = true)
    (files : List (List XMLAttribute)) (tail : List XMLEvent)
    (hall : ∀ f ∈ files, ∀ p, checked_path path f = some p → sys.FileExists p = true) :
    run_sax (xml_check_files sys (some path)) (files.flatMap file_events ++ tail) st =
      (run_sax (xml_check_files sys (some path)) tail st).map
        (fun r => (r.1, (checked_paths path files).map Effect.file_exists ++ r.2.1, r.2.2)) := by
  induction files with
  | nil =>
    exact (prepend_nil (run_sax (xml_check_files sys (some path)) tail st)).symm
  | cons f t ih =>
    have h1 := check_start_file sys path romset st f hpath
    have h2 := check_end_file sys path romset st f hpath
    rw [if_pos hst, check_file_attributes_found sys path f (hall f (List.mem_cons_self f t))] at h1
    show run_sax _ (XMLEvent.START_NODE ⟨"file".toList, f⟩ ::
      XMLEvent.END_NODE ⟨"file".toList, f⟩ :: (t.flatMap file_events ++ tail)) st = _
    rw [run_sax_cons_continue _ _ _ _ _ _ h1, run_sax_cons_continue _ _ _ _ _ _ h2,
      ih (fun f' hf' => hall f' (List.mem_cons_of_mem f hf')), prepend_nil, prepend_prepend]
    simp only [checked_paths, List.flatMap_cons, List.map_append]

theorem check_skip_set (sys : Sys) (path romset : CStr) (st : CheckState)
    (hpath : strrchr_after '/' path = some romset) (hr : st.romsets = true)
    (attrs : List XMLAttribute) (files : List (List XMLAttribute)) (tail : List XMLEvent)
    (hattrs : attrs ≠ []) (hno : check_matches romset attrs = false) :
    run_sax (xml_check_files sys (some path)) (romset_events attrs files ++ tail) st =
      run_sax (xml_check_files sys (some path)) tail { st with in_correct_romset := false } := by
  have h1 := check_start_romset sys path romset st attrs hpath (fun _ => hattrs)
  have hs : ({ st with in_correct_romset := (!st.romsets) || check_matches romset attrs } :
      CheckState) = { st with in_correct_romset := false } := by
    rw [hr, hno]; rfl
  rw [hs] at h1
  have h3 := check_end_romset sys path romset { st with in_correct_romset := false } attrs hpath
  rw [if_neg (by simp)] at h3
  show run_sax _ (XMLEvent.START_NODE ⟨"romset".toList, attrs⟩ ::
    ((files.flatMap file_events ++ [XMLEvent.END_NODE ⟨"romset".toList, attrs⟩]) ++ tail)) st = _
  rw [run_sax_cons_continue _ _ _ _ _ _ h1, prepend_nil, List.append_assoc,
    check_skip_files sys path romset _ hpath rfl files, List.singleton_append,
    run_sax_cons_continue _ _ _ _ _ _ h3, prepend_nil]

theorem check_skip_sets (sys : Sys) (path romset : CStr)
    (hpath : strrchr_after '/' path = some romset)
    (before : List (List XMLAttribute × List (List XMLAttribute))) :
    ∀ (st : CheckState) (tail : List XMLEvent), st.romsets = true →
      (∀ r ∈ before, r.1 ≠ [] ∧ check_matches romset r.1 = false) →
      ∃ b, run_sax (xml_check_files sys (some path))
          (before.flatMap (fun r => romset_events r.1 r.2) ++ tail) st =
        run_sax (xml_check_files sys (some path)) tail { st with in_correct_romset := b } := by
  induction before with
  | nil => intro st tail _ _; exact ⟨st.in_correct_romset, rfl⟩
  | cons r t ih =>
    intro st tail hr h
    obtain ⟨h1, h2⟩ := h r (List.mem_cons_self r t)
    obtain ⟨b, hb⟩ := ih { st with in_correct_romset := false } tail hr
      (fun x hx => h x (List.mem_cons_of_mem r hx))
    refine ⟨b, ?_⟩
    rw [List.flatMap_cons, List.append_assoc,
      check_skip_set sys path romset st hpath hr r.1 r.2 _ h1 h2, hb]

theorem check_matching_set_ok (sys : Sys) (path romset : CStr) (st : CheckState)
    (hpath : strrchr_after '/' path = some romset)
    (attrs : List XMLAttribute) (files : List (List XMLAttribute)) (tail : List XMLEvent)
    (hm : ((!st.romsets) || check_matches romset attrs) = true)
    (hattrs : st.romsets = true → attrs ≠ [])
    (hall : ∀ f ∈ files, ∀ p, checked_path path f = some p → sys.FileExists p = true) :
    run_sax (xml_check_files sys (some path)) (romset_events attrs files ++ tail) st =
      some ({ st with in_correct_romset := true, checked_ok := true },
        (checked_paths path files).map Effect.file_exists, tail) := by
  have h1 := check_start_romset sys path romset st attrs hpath hattrs
  rw [hm] at h1
  have h3 := check_end_romset sys path romset { st with in_correct_romset := true } attrs hpath
  rw [if_pos rfl] at h3
  show run_sax _ (XMLEvent.START_NODE ⟨"romset".toList, attrs⟩ ::
    ((files.flatMap file_events ++ [XMLEvent.END_NODE ⟨"romset".toList, attrs⟩]) ++ tail)) st = _
  rw [run_sax_cons_continue _ _ _ _ _ _ h1, prepend_nil, List.append_assoc,
    check_pass_files sys path romset _ hpath rfl files _ hall, List.singleton_append,
    run_sax_cons_stop _ _ _ _ _ _ h3]
  simp

theorem check_matching_set_missing (sys : Sys) (path romset : CStr) (st : CheckState)
    (hpath : strrchr_after '/' path = some romset)
    (attrs : List XMLAttribute) (fs1 : List (List XMLAttribute)) (f : List XMLAttribute)
    (fs2 : List (List XMLAttribute)) (tail : List XMLEvent) (p : CStr)
    (hm : ((!st.romsets) || check_matches romset attrs) = true)
    (hattrs : st.romsets = true → attrs ≠ [])
    (hall : ∀ f' ∈ fs1, ∀ p', checked_path path f' = some p' → sys.FileExists p' = true)
    (hp : checked_path path f = some p) (hmiss : sys.FileExists p = false) :
    ∃ eff rest,
      run_sax (xml_check_files sys (some path))
          (romset_events attrs (fs1 ++ f :: fs2) ++ tail) st =
        some ({ st with in_correct_romset := true }, eff,
          XMLEvent.END_NODE ⟨"file".toList, f⟩ :: rest) ∧
      existence_checks eff = checked_paths path fs1 ++ [p] ∧
      (xml_check_files sys (some path) { st with in_correct_romset := true }
        (XMLEvent.START_NODE ⟨"file".toList, f⟩)).map (fun r => r.1) = some false := by
  have h1 := check_start_romset sys path romset st attrs hpath hattrs
  rw [hm] at h1
  have h2 := check_start_file sys path romset { st with in_correct_romset := true } f hpath
  rw [if_pos rfl] at h2
  obtain ⟨m1, m2⟩ := check_file_attributes_missing sys path f p hp hmiss
  rw [m1] at h2
  refine ⟨(checked_paths path fs1).map Effect.file_exists ++
    (check_file_attributes sys path f).2,
    fs2.flatMap file_events ++ ([XMLEvent.END_NODE ⟨"romset".toList, attrs⟩] ++ tail),
    ?_, ?_, ?_⟩
  · show run_sax _ (XMLEvent.START_NODE ⟨"romset".toList, attrs⟩ ::
      (((fs1 ++ f :: fs2).flatMap file_events ++
        [XMLEvent.END_NODE ⟨"romset".toList, attrs⟩]) ++ tail)) st = _
    rw [run_sax_cons_continue _ _ _ _ _ _ h1, prepend_nil, List.flatMap_append,
      List.append_assoc, List.append_assoc,
      check_pass_files sys path romset _ hpath rfl fs1 _ hall, List.flatMap_cons]
    show Option.map _ (run_sax _ (XMLEvent.START_NODE ⟨"file".toList, f⟩ ::
      (XMLEvent.END_NODE ⟨"file".toList, f⟩ :: (fs2.flatMap file_events ++
        ([XMLEvent.END_NODE ⟨"romset".toList, attrs⟩] ++ tail)))) _) = _
    rw [run_sax_cons_stop _ _ _ _ _ _ h2]
    rfl
  · rw [existence_checks_append, existence_checks_map, m2]
  · rw [h2]; rfl

theorem check_reach_set (sys : Sys) (path romset : CStr) (b wrapped : Bool)
    (hpath : strrchr_after '/' path = some romset)
    (before after : List (List XMLAttribute × List (List XMLAttribute)))
    (attrs : List XMLAttribute) (files : List (List XMLAttribute))
    (hbefore : wrapped = true → ∀ r ∈ before, r.1 ≠ [] ∧ check_matches romset r.1 = false)
    (hmatch : wrapped = true → check_matches romset attrs = true) :
    ∃ st tail,
      run_sax (xml_check_files sys (some path))
          (manifest_events wrapped before attrs files after) ⟨false, false, b⟩ =
        run_sax (xml_check_files sys (some path)) (romset_events attrs files ++ tail) st ∧
      st.checked_ok = false ∧
      ((!st.romsets) || check_matches romset attrs) = true ∧
      (st.romsets = true → attrs ≠ []) := by
  cases wrapped with
  | false =>
    refine ⟨⟨false, false, b⟩, [], ?_, rfl, rfl, ?_⟩
    · simp [manifest_events]
    · intro h; cases h
  | true =>
    have hm := hmatch rfl
    have hne : attrs ≠ [] := by
      intro e; rw [e] at hm; cases hm
    have h0 := check_start_romsets sys path romset ⟨false, false, b⟩ [] hpath
    obtain ⟨b', hb'⟩ := check_skip_sets sys path romset hpath before ⟨false, true, b⟩
      (romset_events attrs files ++
        (after.flatMap (fun r => romset_events r.1 r.2) ++
          [XMLEvent.END_NODE ⟨"romsets".toList, []⟩])) rfl (hbefore rfl)
    refine ⟨⟨false, true, b'⟩, after.flatMap (fun r => romset_events r.1 r.2) ++
        [XMLEvent.END_NODE ⟨"romsets".toList, []⟩], ?_, rfl, ?_, fun _ => hne⟩
    · show run_sax _ (XMLEvent.START_NODE ⟨"romsets".toList, []⟩ ::
        (((before ++ (attrs, files) :: after).flatMap (fun r => romset_events r.1 r.2)) ++
          [XMLEvent.END_NODE ⟨"romsets".toList, []⟩])) _ = _
      rw [run_sax_cons_continue _ _ _ _ _ _ h0, prepend_nil, List.flatMap_append,
        List.flatMap_cons, List.append_assoc, List.append_assoc]
      exact hb'
    · simp [hm]

theorem exists_of_checked_paths (sys : Sys) (path : CStr) (files : List (List XMLAttribute))
    (h : ∀ p ∈ checked_paths path files, sys.FileExists p = true) :
    ∀ f ∈ files, ∀ p, checked_path path f = some p → sys.FileExists p = true := by
  intro f hf p hp
  apply h
  unfold checked_paths
  rw [List.mem_flatMap]
  exact ⟨f, hf, by simp [hp]⟩

/-- Support for C6: the validation pass `xml_check_files`, run from
`checked_ok = false` over a manifest holding a part-list that the pass takes
as matching: in a shared manifest the value of its first attribute holds the
target name and the part-lists before it fail that test; a legacy single
part-list file always matches.  If every file element of the part-list names
an existing file the pass ends with `checked_ok = true`, having checked those
files.  If the file elements `fs1` exist and the next one names the missing
file `p`, the callback returns `false` at that element, the parse stops
there with `checked_ok = false`, and the files passed to the existence
check are those of `fs1` and `p`, none of the later ones. -/
theorem validation_pass (sys : Sys) (path romset : CStr) (b wrapped : Bool)
    (before after : List (List XMLAttribute × List (List XMLAttribute)))
    (attrs : List XMLAttribute) (files : List (List XMLAttribute))
    (hpath : strrchr_after '/' path = some romset)
    (hbefore : wrapped = true → ∀ r ∈ before, r.1 ≠ [] ∧ check_matches romset r.1 = false)
    (hmatch : wrapped = true → check_matches romset attrs = true) :
    ((∀ p ∈ checked_paths path files, sys.FileExists p = true) →
      ∃ st eff rest,
        run_sax (xml_check_files sys (some path))
          (manifest_events wrapped before attrs files after) ⟨false, false, b⟩ =
            some (st, eff, rest) ∧
        st.checked_ok = true ∧ existence_checks eff = checked_paths path files) ∧
    (∀ fs1 f fs2 p, files = fs1 ++ f :: fs2 →
      (∀ p' ∈ checked_paths path fs1, sys.FileExists p' = true) →
      checked_path path f = some p → sys.FileExists p = false →
      ∃ st eff rest,
        run_sax (xml_check_files sys (some path))
          (manifest_events wrapped before attrs files after) ⟨false, false, b⟩ =
            some (st, eff, XMLEvent.END_NODE ⟨"file".toList, f⟩ :: rest) ∧
        st.checked_ok = false ∧
        (xml_check_files sys (some path) st (XMLEvent.START_NODE ⟨"file".toList, f⟩)).map
          (fun r => r.1) = some false ∧
        existence_checks eff = checked_paths path fs1 ++ [p]) := by
  obtain ⟨st, tail, hrun, hck, hm, hattrs⟩ :=
    check_reach_set sys path romset b wrapped hpath before after attrs files hbefore hmatch
  constructor
  · intro hall
    refine ⟨{ st with in_correct_romset := true, checked_ok := true },
      (checked_paths path files).map Effect.file_exists, tail, ?_, rfl,
      existence_checks_map _⟩
    rw [hrun]
    exact check_matching_set_ok sys path romset st hpath attrs files tail hm hattrs
      (exists_of_checked_paths sys path files hall)
  · intro fs1 f fs2 p hfiles hall hp hmiss
    subst hfiles
    obtain ⟨eff, rest, h1, h2, h3⟩ := check_matching_set_missing sys path romset st hpath
      attrs fs1 f fs2 tail p hm hattrs (exists_of_checked_paths sys path fs1 hall) hp hmiss
    refine ⟨{ st with in_correct_romset := true }, eff, rest, ?_, hck, h3, h2⟩
    rw [hrun]
    exact h1

/-- The statement `validation_pass` in the sample environment: a shared
manifest with the part-lists `other` and `demo`, each with `name` as its
first attribute; `demo` with one present file, and `demo` with a present, a
missing and a further file. -/
theorem validation_pass_witness :
    (∃ st eff rest,
      run_sax (xml_check_files sample_sys (some "games/demo".toList))
        (manifest_events true [([⟨"name".toList, "other".toList⟩], [])]
          [⟨"name".toList, "demo".toList⟩] [[⟨"name".toList, "a.bin".toList⟩]] [])
        ⟨false, false, false⟩ = some (st, eff, rest) ∧
      st.checked_ok = true ∧
      existence_checks eff =
        checked_paths "games/demo".toList [[⟨"name".toList, "a.bin".toList⟩]]) ∧
    (∃ st eff rest,
      run_sax (xml_check_files sample_sys (some "games/demo".toList))
        (manifest_events true [([⟨"name".toList, "other".toList⟩], [])]
          [⟨"name".toList, "demo".toList⟩]
          ([[⟨"name".toList, "a.bin".toList⟩]] ++ [⟨"name".toList, "missing.bin".toList⟩] ::
            [[⟨"name".toList, "c.bin".toList⟩]]) [])
        ⟨false, false, false⟩ =
          some (st, eff, XMLEvent.END_NODE
            ⟨"file".toList, [⟨"name".toList, "missing.bin".toList⟩]⟩ :: rest) ∧
      st.checked_ok = false ∧
      (xml_check_files sample_sys (some "games/demo".toList) st
        (XMLEvent.START_NODE ⟨"file".toList, [⟨"name".toList, "missing.bin".toList⟩]⟩)).map
          (fun r => r.1) = some false ∧
      existence_checks eff =
        checked_paths "games/demo".toList [[⟨"name".toList, "a.bin".toList⟩]] ++
          ["games/demo/missing.bin".toList]) := by
  have h1 := (validation_pass sample_sys "games/demo".toList "demo".toList false true
      [([⟨"name".toList, "other".toList⟩], [])] [] [⟨"name".toList, "demo".toList⟩]
      [[⟨"name".toList, "a.bin".toList⟩]] (by decide) (by decide) (by decide)).1 (by decide)
  have h2 := (validation_pass sample_sys "games/demo".toList "demo".toList false true
      [([⟨"name".toList, "other".toList⟩], [])] [] [⟨"name".toList, "demo".toList⟩]
      ([[⟨"name".toList, "a.bin".toList⟩]] ++ [⟨"name".toList, "missing.bin".toList⟩] ::
        [[⟨"name".toList, "c.bin".toList⟩]])
      (by decide) (by decide) (by decide)).2
      [[⟨"name".toList, "a.bin".toList⟩]] [⟨"name".toList, "missing.bin".toList⟩]
      [[⟨"name".toList, "c.bin".toList⟩]] "games/demo/missing.bin".toList rfl
      (by decide) (by decide) (by decide)
  exact ⟨h1, h2⟩

/-- C6, the failing inputs, for the target `demo` in the sample environment.
The part-list `<romset hw="1" name="demo">` inside a `romsets` root is named
`demo` and both of its files `a.bin` and `b.bin` exist, yet the validation
pass runs to the end of the manifest with `checked_ok` false and passes no
file to the existence check: it compares the value of the first attribute,
`hw`, with the target.  In the manifest that holds
`<romset altname="demo" name="other">` with the file `missing.bin` and then
`<romset name="demo">` with the file `a.bin`, every file of the part-list
named `demo` exists, yet the pass takes the part-list named `other` as
matching, stops at its missing file with `checked_ok` false and never checks
`a.bin`. -/
theorem validation_fails_with_files_present :
    (has_name "demo".toList "demo".toList = 1 ∧
      (∀ p ∈ checked_paths "games/demo".toList
          [[⟨"name".toList, "a.bin".toList⟩], [⟨"name".toList, "b.bin".toList⟩]],
        sample_sys.FileExists p = true) ∧
      (run_sax (xml_check_files sample_sys (some "games/demo".toList))
        (romsets_events [([⟨"hw".toList, "1".toList⟩, ⟨"name".toList, "demo".toList⟩],
          [[⟨"name".toList, "a.bin".toList⟩], [⟨"name".toList, "b.bin".toList⟩]])])
        ⟨false, false, false⟩).map
        (fun r => (r.1.checked_ok, existence_checks r.2.1, r.2.2)) = some (false, [], [])) ∧
    (has_name "other".toList "demo".toList = 0 ∧
      (∀ p ∈ checked_paths "games/demo".toList [[⟨"name".toList, "a.bin".toList⟩]],
        sample_sys.FileExists p = true) ∧
      (run_sax (xml_check_files sample_sys (some "games/demo".toList))
        (romsets_events
          [([⟨"altname".toList, "demo".toList⟩, ⟨"name".toList, "other".toList⟩],
              [[⟨"name".toList, "missing.bin".toList⟩]]),
            ([⟨"name".toList, "demo".toList⟩], [[⟨"name".toList, "a.bin".toList⟩]])])
        ⟨false, false, false⟩).map
        (fun r => (r.1.checked_ok, existence_checks r.2.1)) =
          some (false, ["games/demo/missing.bin".toList])) := by
  refine ⟨⟨by decide, by decide, by decide⟩, ⟨by decide, by decide, by decide⟩⟩

/-! ## Execution pass -/

theorem load_romset_attribute_file_cnt (sys : Sys) (romsets : Bool) (romset : CStr)
    (st : LoadState) (a : XMLAttribute) :
    (load_romset_attribute sys romsets romset st a).file_cnt = st.file_cnt := by
  unfold load_romset_attribute
  split_ifs <;> rfl

theorem foldl_romset_attribute_file_cnt (sys : Sys) (romsets : Bool) (romset : CStr)
    (attrs : List XMLAttribute) :
    ∀ st : LoadState,
      (attrs.foldl (load_romset_attribute sys romsets romset) st).file_cnt = st.file_cnt := by
  induction attrs with
  | nil => intro st; rfl
  | cons a t ih =>
    intro st
    rw [List.foldl_cons, ih, load_romset_attribute_file_cnt]

theorem load_start_romset (sys : Sys) (romsets : Bool) (path romset : CStr) (st : LoadState)
    (attrs : List XMLAttribute) (hpath : strrchr_after '/' path = some romset) :
    ∃ st1, xml_load_files sys romsets (some path) st
        (XMLEvent.START_NODE ⟨"romset".toList, attrs⟩) = some (true, st1, []) ∧
      st1.file_cnt = 0 := by
  have e1 : strcasecmp_zero "romset".toList "romset".toList = true := by decide
  have e2 : strcasecmp_zero "romset".toList "file".toList = false := by decide
  refine ⟨attrs.foldl (load_romset_attribute sys romsets romset)
    (if romsets = false then
      { st with file_cnt := 0, vromb_offset := 0, vrom_mirror := 1, use_pcm := 1, hw_type := 0,
                in_correct_romset := true }
     else
      { st with file_cnt := 0, vromb_offset := 0, vrom_mirror := 1, use_pcm := 1,
                hw_type := 0 }), ?_, ?_⟩
  · simp only [xml_load_files, hpath, e1, e2]
    simp
  · rw [foldl_romset_attribute_file_cnt]
    split_ifs <;> rfl

theorem load_end_romset (sys : Sys) (romsets : Bool) (path romset : CStr) (st : LoadState)
    (attrs : List XMLAttribute) (hpath : strrchr_after '/' path = some romset)
    (hin : st.in_correct_romset = true) :
    xml_load_files sys romsets (some path) st (XMLEvent.END_NODE ⟨"romset".toList, attrs⟩) =
      some (false, st,
        (if st.file_cnt = 0 then load_known_files path st else []) ++
          [Call.set_status ((st.hw_type &&& 3) <<< 24) 0x03000000,
           Call.set_status ((st.use_pcm &&& 1) <<< 26) 0x04000000]) := by
  have e1 : strcasecmp_zero "romset".toList "romset".toList = true := by decide
  simp only [xml_load_files, hpath, e1, hin]
  simp

theorem tx_requests_append (a b : List Call) :
    tx_requests (a ++ b) = tx_requests a ++ tx_requests b := by
  simp [tx_requests, List.filterMap_append]

/-- C7 (amended): a matching part-list that closes with no file element
declared makes the close event issue, in this order, the six requests
`prom`/4, `p1rom`/4, `p2rom`/6, `srom`/8, `crom0`/15 and `m1rom`/9, each once,
followed by the voice ROM requests: `vroma0`/16, and a second request for
index 48 when `vromb_offset` is set (`vroma0` again, from that offset) or
when `pcm` is 0 (`vromb0`).  That is seven or eight requests, not six. -/
theorem fallback_requests (sys : Sys) (romsets : Bool) (path romset : CStr)
    (st0 st1 : LoadState) (attrs : List XMLAttribute)
    (hpath : strrchr_after '/' path = some romset)
    (hstart : xml_load_files sys romsets (some path) st0
      (XMLEvent.START_NODE ⟨"romset".toList, attrs⟩) = some (true, st1, []))
    (hmatch : st1.in_correct_romset = true) :
    ∃ calls,
      run_sax (xml_load_files sys romsets (some path)) (romset_events attrs []) st0 =
        some (st1, calls, []) ∧
      tx_requests calls =
        [⟨path, "prom".toList, NEO_FILE_RAW, 4, 0, 0, 0⟩,
         ⟨path, "p1rom".toList, NEO_FILE_RAW, 4, 0, 0, 0⟩,
         ⟨path, "p2rom".toList, NEO_FILE_RAW, 6, 0, 0, 0⟩,
         ⟨path, "srom".toList, NEO_FILE_FIX, 8, 0, 0, 0⟩,
         ⟨path, "crom0".toList, NEO_FILE_SPR, 15, 0, 0, 0⟩,
         ⟨path, "m1rom".toList, NEO_FILE_RAW, 9, 0, 0, 0⟩] ++
        (if st1.vromb_offset ≠ 0 then
          [⟨path, "vroma0".toList, NEO_FILE_RAW, 16, 0, st1.vromb_offset,
              if st1.vrom_mirror ≠ 0 then 0 else 16 * 1024 * 1024⟩,
           ⟨path, "vroma0".toList, NEO_FILE_RAW, 48, st1.vromb_offset, 0,
              if st1.vrom_mirror ≠ 0 then 0 else 16 * 1024 * 1024⟩]
         else if st1.use_pcm = 0 then
          [⟨path, "vroma0".toList, NEO_FILE_RAW, 16, 0, 0,
              if st1.vrom_mirror ≠ 0 then 0 else 16 * 1024 * 1024⟩,
           ⟨path, "vromb0".toList, NEO_FILE_RAW, 48, 0, 0,
              if st1.vrom_mirror ≠ 0 then 0 else 16 * 1024 * 1024⟩]
         else
          [⟨path, "vroma0".toList, NEO_FILE_RAW, 16, 0, 0,
              if st1.vrom_mirror ≠ 0 then 0 else 16 * 1024 * 1024⟩]) ∧
      ((tx_requests calls).length = 7 ∨ (tx_requests calls).length = 8) := by
  obtain ⟨st1', h1, hcnt⟩ := load_start_romset sys romsets path romset st0 attrs hpath
  rw [hstart] at h1
  have e : st1 = st1' := by
    simp only [Option.some.injEq, Prod.mk.injEq, true_and, and_true] at h1
    exact h1
  subst e
  have hend := load_end_romset sys romsets path romset st1 attrs hpath hmatch
  rw [if_pos hcnt] at hend
  refine ⟨load_known_files path st1 ++
    [Call.set_status ((st1.hw_type &&& 3) <<< 24) 0x03000000,
     Call.set_status ((st1.use_pcm &&& 1) <<< 26) 0x04000000], ?_, ?_, ?_⟩
  · show run_sax _ (XMLEvent.START_NODE ⟨"romset".toList, attrs⟩ ::
      [XMLEvent.END_NODE ⟨"romset".toList, attrs⟩]) st0 = _
    rw [run_sax_cons_continue _ _ _ _ _ _ hstart, run_sax_cons_stop _ _ _ _ _ _ hend]
    rfl
  · rw [tx_requests_append]
    unfold load_known_files VROM_SIZE
    split_ifs <;> rfl
  · rw [tx_requests_append]
    unfold load_known_files
    split_ifs <;> simp [tx_requests]

/-- Witness of C7 (amended): the part-list `demo` of a shared manifest with
`vromb_offset="2048"` and no file element. -/
theorem fallback_requests_witness :
    ∃ calls,
      run_sax (xml_load_files sample_sys true (some "games/demo".toList))
        (romset_events [⟨"name".toList, "demo".toList⟩,
          ⟨"vromb_offset".toList, "2048".toList⟩] []) LoadState.init =
        some ({ LoadState.init with in_correct_romset := true, vromb_offset := 2048 },
          calls, []) ∧
      ((tx_requests calls).length = 7 ∨ (tx_requests calls).length = 8) :=
  (fallback_requests sample_sys true "games/demo".toList "demo".toList LoadState.init
    { LoadState.init with in_correct_romset := true, vromb_offset := 2048 }
    [⟨"name".toList, "demo".toList⟩, ⟨"vromb_offset".toList, "2048".toList⟩]
    (by decide) (by decide) (by decide)).imp (fun _ h => ⟨h.1, h.2.2⟩)

/-- C7 as stated fails: a part-list without attributes and without file
elements makes the close event issue seven requests, and one with
`vromb_offset` eight, two of them for the file `vroma0`. -/
theorem fallback_issues_more_than_six_requests :
    (run_sax (xml_load_files sample_sys false (some "games/demo".toList))
        (romset_events [] []) LoadState.init).map
      (fun r => (tx_requests r.2.1).map (fun q => (q.name, q.index))) =
      some [("prom".toList, 4), ("p1rom".toList, 4), ("p2rom".toList, 6), ("srom".toList, 8),
        ("crom0".toList, 15), ("m1rom".toList, 9), ("vroma0".toList, 16)] ∧
    (run_sax (xml_load_files sample_sys false (some "games/demo".toList))
        (romset_events [⟨"vromb_offset".toList, "2048".toList⟩] []) LoadState.init).map
      (fun r => (tx_requests r.2.1).map (fun q => (q.name, q.index))) =
      some [("prom".toList, 4), ("p1rom".toList, 4), ("p2rom".toList, 6), ("srom".toList, 8),
        ("crom0".toList, 15), ("m1rom".toList, 9), ("vroma0".toList, 16),
        ("vroma0".toList, 48)] := by
  refine ⟨by decide, by decide⟩
/-! ## Orchestrator -/

theorem check_file_attributes_is_check (sys : Sys) (path : CStr) (attrs : List XMLAttribute) :
    ∀ e ∈ (check_file_attributes sys path attrs).2, e.is_check = true := by
  induction attrs with
  | nil => intro e he; cases he
  | cons a t ih =>
    unfold check_file_attributes
    split_ifs
    · intro e he
      simp only [List.mem_singleton] at he
      subst he; rfl
    · intro e he
      simp only [List.mem_cons, List.mem_singleton, List.not_mem_nil, or_false] at he
      rcases he with rfl | rfl <;> rfl
    · exact ih

theorem xml_check_files_is_check (sys : Sys) (user : Option CStr) (st st1 : CheckState)
    (evt : XMLEvent) (b : Bool) (out : List Effect)
    (h : xml_check_files sys user st evt = some (b, st1, out)) :
    ∀ e ∈ out, e.is_check = true := by
  have hnil : ∀ e ∈ ([] : List Effect), e.is_check = true := fun e he => by cases he
  unfold xml_check_files at h
  split at h
  · cases h; exact hnil
  · split at h
    · cases h; exact hnil
    · split at h
      · simp only [] at h
        split at h
        · cases h
        · split at h
          · cases h
            exact check_file_attributes_is_check sys _ _
          · cases h; exact hnil
      · split_ifs at h <;> cases h <;> exact hnil
      · cases h; exact hnil
      · cases h; exact hnil

theorem run_sax_check_is_check (sys : Sys) (user : Option CStr) (events : List XMLEvent) :
    ∀ (st st1 : CheckState) (eff : List Effect) (rest : List XMLEvent),
      run_sax (xml_check_files sys user) events st = some (st1, eff, rest) →
      ∀ e ∈ eff, e.is_check = true := by
  induction events with
  | nil =>
    intro st st1 eff rest h e he
    simp only [run_sax, Option.some.injEq, Prod.mk.injEq] at h
    rw [← h.2.1] at he
    cases he
  | cons ev t ih =>
    intro st st1 eff rest h
    unfold run_sax at h
    cases hcb : xml_check_files sys user st ev with
    | none => rw [hcb] at h; cases h
    | some r =>
      obtain ⟨b, s1, out⟩ := r
      have hout := xml_check_files_is_check sys user st s1 ev b out hcb
      rw [hcb] at h
      cases b with
      | false =>
        simp only [Option.some.injEq, Prod.mk.injEq] at h
        rw [← h.2.1]; exact hout
      | true =>
        simp only [] at h
        cases hr : run_sax (xml_check_files sys user) t s1 with
        | none => rw [hr] at h; cases h
        | some r2 =>
          obtain ⟨s2, out2, rest2⟩ := r2
          rw [hr] at h
          simp only [Option.some.injEq, Prod.mk.injEq] at h
          intro e he
          rw [← h.2.1] at he
          rcases List.mem_append.1 he with he | he
          · exact hout e he
          · exact ih s1 s2 out2 rest2 hr e he

/-- C8: for a set name holding a `/` and a system type with bit 1 clear,
when the validation pass ends with `checked_ok` false, `neogeo_romset_tx`
returns 0; the statics of the execution pass are untouched; the actions are
the status query, the reset hold and the existence checks and messages of
the validation pass: no call of `neogeo_tx` or `neogeo_file_tx`, no frame,
window or notification, no mount, and no release of the reset hold. -/
theorem romset_tx_validation_failure (sys : Sys) (g : Globals) (name romset : CStr)
    (chk : CheckState) (eff : List Effect) (rest : List XMLEvent)
    (hname : strrchr_after '/' name = some romset)
    (hsys : ((sys.status >>> 1) &&& 3) &&& 2 = 0)
    (hrun : run_sax (xml_check_files sys (some name)) (sys.xml_events (manifest_path sys name))
      { g.check with checked_ok := false, romsets := false } = some (chk, eff, rest))
    (hfail : chk.checked_ok = false) :
    ∃ g1 trace,
      neogeo_romset_tx sys g name = some (0, g1, trace) ∧
      g1.load = g.load ∧ g1.crom_sz = 0 ∧
      trace = [Effect.set_status 0 0, Effect.set_status 1 1] ++ eff ∧
      (∀ e ∈ eff, e.is_check = true) ∧
      (∀ e ∈ trace, e.is_transfer = false) ∧
      (∀ p, Effect.file_mount p ∉ trace) ∧
      Effect.set_status 0 1 ∉ trace ∧
      Effect.set_status 1 1 ∈ trace := by
  have hchk := run_sax_check_is_check sys (some name) _ _ _ _ _ hrun
  refine ⟨{ crom_sz := 0, check := chk, load := g.load },
    [Effect.set_status 0 0, Effect.set_status 1 1] ++ eff, ?_, rfl, rfl, rfl, hchk, ?_, ?_, ?_, ?_⟩
  · unfold neogeo_romset_tx
    simp only [hname, hsys, if_true, hrun, hfail]
  · intro e he
    rcases List.mem_append.1 he with he | he
    · simp only [List.mem_cons, List.mem_singleton, List.not_mem_nil, or_false] at he
      rcases he with rfl | rfl <;> rfl
    · have := hchk e he
      cases e <;> first | rfl | cases this
  · intro p hp
    rcases List.mem_append.1 hp with hp | hp
    · simp at hp
    · have := hchk _ hp
      cases this
  · intro hp
    rcases List.mem_append.1 hp with hp | hp
    · simp at hp
    · have := hchk _ hp
      cases this
  · simp

/-- Witness of C8 in the sample environment: the part-list `demo` names the
missing file `missing.bin`. -/
theorem romset_tx_validation_failure_witness :
    ∃ g1 trace,
      neogeo_romset_tx sample_sys ⟨7, ⟨true, false, false⟩, LoadState.init⟩
        "games/demo".toList = some (0, g1, trace) ∧
      g1.load = LoadState.init ∧ g1.crom_sz = 0 ∧
      trace = [Effect.set_status 0 0, Effect.set_status 1 1,
        Effect.file_exists "games/demo/missing.bin".toList,
        Effect.info "Missing missing.bin !".toList] := by
  have h := romset_tx_validation_failure sample_sys ⟨7, ⟨true, false, false⟩, LoadState.init⟩
    "games/demo".toList "demo".toList ⟨false, true, true⟩
    [Effect.file_exists "games/demo/missing.bin".toList,
      Effect.info "Missing missing.bin !".toList]
    [XMLEvent.END_NODE ⟨"file".toList, [⟨"name".toList, "missing.bin".toList⟩]⟩,
      XMLEvent.END_NODE ⟨"romset".toList, [⟨"name".toList, "demo".toList⟩]⟩,
      XMLEvent.END_NODE ⟨"romsets".toList, []⟩]
    (by decide) (by decide) (by decide) (by decide)
  obtain ⟨g1, trace, h1, h2, h3, h4, _⟩ := h
  exact ⟨g1, trace, h1, h2, h3, h4⟩
/-! ## Expansion of unmirrored parts -/

theorem load_end_file (sys : Sys) (romsets : Bool) (path romset : CStr) (st : LoadState)
    (attrs : List XMLAttribute) (hpath : strrchr_after '/' path = some romset)
    (hin : st.in_correct_romset = true) (hfile : st.in_file = true) :
    xml_load_files sys romsets (some path) st (XMLEvent.END_NODE ⟨"file".toList, attrs⟩) =
      some (true, { st with in_file := false },
        [Call.neogeo_tx ⟨path, st.file_name, st.file_type, st.file_index, st.file_offset,
          st.file_size, load_file_expand st⟩]) := by
  have e1 : strcasecmp_zero "file".toList "romset".toList = false := by decide
  have e2 : strcasecmp_zero "file".toList "file".toList = true := by decide
  simp only [xml_load_files, hpath, e1, e2, hin, hfile]
  simp

theorem load_file_expand_eq (st : LoadState) (hm : st.vrom_mirror = 0)
    (h16 : 16 ≤ st.file_index) (h64 : st.file_index < 64) :
    load_file_expand st =
      16 * 1024 * 1024 - ((st.file_index - 16) * 0x80000) % (16 * 1024 * 1024) := by
  unfold load_file_expand VROM_SIZE
  rw [if_pos ⟨hm, h16, h64⟩]
  have : ((st.file_index - 16) * 0x80000) &&& 0xFFFFFF =
      ((st.file_index - 16) * 0x80000) % 2 ^ 24 :=
    Nat.and_pow_two_sub_one_eq_mod _ 24
  rw [this]
  norm_num

/-- C10: for a declared part with destination index in `[16, 64)` and
mirroring disabled, the expand amount handed to `neogeo_tx` is
`16 MiB - (((index - 16) * 0x80000) mod 16 MiB)`; it lies in `(0, 16 MiB]`;
the range that starts at the offset `load_rom_to_mem` gives the index ends
on a 16 MiB boundary and at or before the start of the index-9 region at
offset `0x2000000`; and among indices of one 16 MiB region a larger index
gets a strictly smaller expand amount. -/
theorem expand_unmirrored (sys : Sys) (romsets : Bool) (path romset : CStr) (st : LoadState)
    (attrs : List XMLAttribute) (hpath : strrchr_after '/' path = some romset)
    (hin : st.in_correct_romset = true) (hfile : st.in_file = true)
    (hm : st.vrom_mirror = 0) (h16 : 16 ≤ st.file_index) (h64 : st.file_index < 64) :
    xml_load_files sys romsets (some path) st (XMLEvent.END_NODE ⟨"file".toList, attrs⟩) =
      some (true, { st with in_file := false },
        [Call.neogeo_tx ⟨path, st.file_name, st.file_type, st.file_index, st.file_offset,
          st.file_size,
          16 * 1024 * 1024 - ((st.file_index - 16) * 0x80000) % (16 * 1024 * 1024)⟩]) ∧
    0 < load_file_expand st ∧ load_file_expand st ≤ 16 * 1024 * 1024 ∧
    load_rom_map_addr st.file_index = 0x30000000 + (st.file_index - 16) * 0x80000 ∧
    ((st.file_index - 16) * 0x80000 + load_file_expand st) % (16 * 1024 * 1024) = 0 ∧
    (st.file_index - 16) * 0x80000 + load_file_expand st ≤ 0x2000000 ∧
    load_rom_map_addr st.file_index + load_file_expand st ≤ load_rom_map_addr 9 ∧
    (∀ st2 : LoadState, st2.vrom_mirror = 0 → st.file_index < st2.file_index →
      st2.file_index < 64 →
      ((st.file_index - 16) * 0x80000) / (16 * 1024 * 1024) =
        ((st2.file_index - 16) * 0x80000) / (16 * 1024 * 1024) →
      load_file_expand st2 < load_file_expand st) := by
  have he := load_file_expand_eq st hm h16 h64
  have hmap : load_rom_map_addr st.file_index = 0x30000000 + (st.file_index - 16) * 0x80000 := by
    unfold load_rom_map_addr
    rw [if_pos ⟨h16, h64⟩]
  have h9 : load_rom_map_addr 9 = 0x30000000 + 0x2000000 := by decide
  refine ⟨?_, ?_, ?_, hmap, ?_, ?_, ?_, ?_⟩
  · rw [load_end_file sys romsets path romset st attrs hpath hin hfile, he]
  · rw [he]; omega
  · rw [he]; omega
  · rw [he]; omega
  · rw [he]; omega
  · rw [hmap, h9, he]; omega
  · intro st2 hm2 hlt h642 hreg
    rw [he, load_file_expand_eq st2 hm2 (by omega) h642]
    omega

/-- Witness of C10: the state after `<file index="20">` with mirroring
disabled, where the expand amount is 14 MiB. -/
theorem expand_unmirrored_witness :
    xml_load_files sample_sys true (some "games/demo".toList)
        { LoadState.init with in_correct_romset := true, in_file := true, vrom_mirror := 0,
                              file_index := 20 }
        (XMLEvent.END_NODE ⟨"file".toList, []⟩) =
      some (true,
        { LoadState.init with in_correct_romset := true, in_file := false, vrom_mirror := 0,
                              file_index := 20 },
        [Call.neogeo_tx ⟨"games/demo".toList, [], NEO_FILE_RAW, 20, 0, 0, 14 * 1024 * 1024⟩]) :=
  (expand_unmirrored sample_sys true "games/demo".toList "demo".toList
    { LoadState.init with in_correct_romset := true, in_file := true, vrom_mirror := 0,
                          file_index := 20 } [] (by decide) (by decide) (by decide) (by decide)
    (by decide) (by decide)).1
/-! ## Part descriptors -/

theorem load_start_file (sys : Sys) (romsets : Bool) (path romset : CStr) (st : LoadState)
    (attrs : List XMLAttribute) (hpath : strrchr_after '/' path = some romset)
    (hin : st.in_correct_romset = true) :
    xml_load_files sys romsets (some path) st (XMLEvent.START_NODE ⟨"file".toList, attrs⟩) =
      some (true,
        { attrs.foldl (load_file_attribute sys
            (attrs.any (fun a => strcasecmp_zero a.name "index".toList)))
            { st with file_offset := 0, file_size := 0, file_type := NEO_FILE_RAW,
                      file_index := 0 } with
          in_file := true
          file_cnt := (attrs.foldl (load_file_attribute sys
            (attrs.any (fun a => strcasecmp_zero a.name "index".toList)))
            { st with file_offset := 0, file_size := 0, file_type := NEO_FILE_RAW,
                      file_index := 0 }).file_cnt + 1 }, []) := by
  have e1 : strcasecmp_zero "file".toList "romset".toList = false := by decide
  have e2 : strcasecmp_zero "file".toList "file".toList = true := by decide
  simp only [xml_load_files, hpath, e1, e2]
  simp only [Bool.false_eq_true, if_false, hin, and_self, if_true]

theorem load_file_attribute_in_correct (sys : Sys) (u : Bool) (st : LoadState)
    (a : XMLAttribute) :
    (load_file_attribute sys u st a).in_correct_romset = st.in_correct_romset := by
  have h1 : ∀ s : LoadState, (load_file_name s a).in_correct_romset = s.in_correct_romset := by
    intro s; unfold load_file_name; split_ifs <;> rfl
  have h2 : ∀ s : LoadState, (load_file_index sys s a).in_correct_romset =
      s.in_correct_romset := by
    intro s; unfold load_file_index; split_ifs <;> rfl
  have h3 : ∀ s : LoadState, (load_file_type s a).in_correct_romset = s.in_correct_romset := by
    intro s; unfold load_file_type load_file_type_letter
    split_ifs
    · split <;> rfl
    · rfl
  have h4 : ∀ s : LoadState, (load_file_offset sys s a).in_correct_romset =
      s.in_correct_romset := by
    intro s; unfold load_file_offset; split_ifs <;> rfl
  have h5 : ∀ s : LoadState, (load_file_size sys s a).in_correct_romset =
      s.in_correct_romset := by
    intro s; unfold load_file_size; split_ifs <;> rfl
  unfold load_file_attribute
  cases u with
  | true => simp only [if_true, h5, h4, h2, h1]
  | false => simp only [Bool.false_eq_true, if_false, h5, h4, h3, h1]

theorem foldl_file_attribute_in_correct (sys : Sys) (u : Bool) (attrs : List XMLAttribute) :
    ∀ st : LoadState,
      (attrs.foldl (load_file_attribute sys u) st).in_correct_romset = st.in_correct_romset := by
  induction attrs with
  | nil => intro st; rfl
  | cons a t ih => intro st; rw [List.foldl_cons, ih, load_file_attribute_in_correct]

theorem type_index_outer (sys : Sys) (a : XMLAttribute) :
    (∀ s : LoadState, type_index (load_file_name s a) = type_index s) ∧
    (∀ s : LoadState, type_index (load_file_offset sys s a) = type_index s) ∧
    (∀ s : LoadState, type_index (load_file_size sys s a) = type_index s) := by
  refine ⟨fun s => ?_, fun s => ?_, fun s => ?_⟩
  · unfold load_file_name; split_ifs <;> rfl
  · unfold load_file_offset; split_ifs <;> rfl
  · unfold load_file_size; split_ifs <;> rfl

theorem file_attribute_other (sys : Sys) (u : Bool) (st : LoadState) (a : XMLAttribute)
    (h : strcasecmp_zero a.name (if u then "index".toList else "type".toList) = false) :
    type_index (load_file_attribute sys u st a) = type_index st := by
  obtain ⟨h1, h4, h5⟩ := type_index_outer sys a
  unfold load_file_attribute
  cases u with
  | true =>
    have h' : strcasecmp_zero a.name "index".toList = false := h
    simp only [if_true, h5, h4]
    unfold load_file_index
    rw [h']
    exact h1 st
  | false =>
    have h' : strcasecmp_zero a.name "type".toList = false := h
    simp only [Bool.false_eq_true, if_false, h5, h4]
    unfold load_file_type
    rw [h']
    exact h1 st

theorem file_attribute_key (sys : Sys) (u : Bool) (st : LoadState) (a : XMLAttribute)
    (h : strcasecmp_zero a.name (if u then "index".toList else "type".toList) = true)
    (h0 : type_index st = (NEO_FILE_RAW, 0)) :
    (type_index (load_file_attribute sys u st a)).1 =
      index_transform (type_index (load_file_attribute sys u st a)).2 := by
  obtain ⟨h1, h4, h5⟩ := type_index_outer sys a
  have hs : type_index (load_file_name st a) = (NEO_FILE_RAW, 0) := by rw [h1, h0]
  have hs0 : (load_file_name st a).file_type = NEO_FILE_RAW := congrArg Prod.fst hs
  have hs1 : (load_file_name st a).file_index = 0 := congrArg Prod.snd hs
  unfold load_file_attribute
  cases u with
  | true =>
    have h' : strcasecmp_zero a.name "index".toList = true := h
    simp only [if_true, h5, h4]
    unfold load_file_index
    rw [if_pos h']
    by_cases c1 : to_uint8 (sys.atoi a.value) ≥ 64 ∨ to_uint8 (sys.atoi a.value) = 15
    · rw [if_pos c1]
      have p1 : to_uint8 (sys.atoi a.value) = 15 ∨ to_uint8 (sys.atoi a.value) ≥ 64 := by tauto
      show NEO_FILE_SPR = index_transform (to_uint8 (sys.atoi a.value))
      unfold index_transform
      rw [if_pos p1]
    · rw [if_neg c1]
      have n1 : ¬ (to_uint8 (sys.atoi a.value) = 15 ∨ to_uint8 (sys.atoi a.value) ≥ 64) := by
        tauto
      by_cases c2 : to_uint8 (sys.atoi a.value) = 2 ∨ to_uint8 (sys.atoi a.value) = 8
      · rw [if_pos c2]
        show NEO_FILE_FIX = index_transform (to_uint8 (sys.atoi a.value))
        unfold index_transform
        rw [if_neg n1, if_pos c2]
      · rw [if_neg c2]
        show (load_file_name st a).file_type = index_transform (to_uint8 (sys.atoi a.value))
        unfold index_transform
        rw [if_neg n1, if_neg c2, hs0]
  | false =>
    have h' : strcasecmp_zero a.name "type".toList = true := h
    simp only [Bool.false_eq_true, if_false, h5, h4]
    unfold load_file_type
    rw [if_pos h']
    unfold load_file_type_letter type_index
    split <;> simp only [hs0, hs1] <;> decide

theorem foldl_file_attribute_other (sys : Sys) (u : Bool) (attrs : List XMLAttribute) :
    ∀ st : LoadState,
      (∀ a ∈ attrs,
        strcasecmp_zero a.name (if u then "index".toList else "type".toList) = false) →
      type_index (attrs.foldl (load_file_attribute sys u) st) = type_index st := by
  induction attrs with
  | nil => intro st _; rfl
  | cons a t ih =>
    intro st h
    rw [List.foldl_cons, ih _ (fun x hx => h x (List.mem_cons_of_mem a hx)),
      file_attribute_other sys u st a (h a (List.mem_cons_self a t))]

theorem foldl_file_attribute_table (sys : Sys) (u : Bool) (attrs : List XMLAttribute) :
    ∀ st : LoadState,
      attrs.countP (fun a =>
        strcasecmp_zero a.name (if u then "index".toList else "type".toList)) ≤ 1 →
      type_index st = (NEO_FILE_RAW, 0) →
      (type_index (attrs.foldl (load_file_attribute sys u) st)).1 =
        index_transform (type_index (attrs.foldl (load_file_attribute sys u) st)).2 := by
  induction attrs with
  | nil =>
    intro st _ h0
    show (type_index st).1 = index_transform (type_index st).2
    rw [h0]; decide
  | cons a t ih =>
    intro st hc h0
    rw [List.foldl_cons]
    by_cases hk : strcasecmp_zero a.name (if u then "index".toList else "type".toList) = true
    · rw [List.countP_cons] at hc
      simp only [hk, if_true] at hc
      have hz : t.countP (fun a =>
          strcasecmp_zero a.name (if u then "index".toList else "type".toList)) = 0 := by omega
      have hnone : ∀ x ∈ t,
          strcasecmp_zero x.name (if u then "index".toList else "type".toList) = false := by
        intro x hx
        have := (List.countP_eq_zero.1 hz) x hx
        simpa using this
      rw [foldl_file_attribute_other sys u t _ hnone]
      exact file_attribute_key sys u st a hk h0
    · rw [List.countP_cons] at hc
      simp only [hk, Bool.false_eq_true, if_false, Nat.add_zero] at hc
      have hk' : strcasecmp_zero a.name (if u then "index".toList else "type".toList) = false := by
        simpa using hk
      exact ih _ hc (by rw [file_attribute_other sys u st a hk', h0])

/-- Support for C9: a `file` element in which `index` occurs at most once
and `type` occurs at most once hands `neogeo_tx` the transform the fixed
table gives for the index it hands over. -/
theorem declared_part_transform (sys : Sys) (romsets : Bool) (path romset : CStr)
    (st : LoadState) (attrs : List XMLAttribute)
    (hpath : strrchr_after '/' path = some romset) (hin : st.in_correct_romset = true)
    (hidx : attrs.countP (fun a => strcasecmp_zero a.name "index".toList) ≤ 1)
    (htyp : attrs.countP (fun a => strcasecmp_zero a.name "type".toList) ≤ 1) :
    ∃ st1 q,
      run_sax (xml_load_files sys romsets (some path)) (file_events attrs) st =
        some (st1, [Call.neogeo_tx q], []) ∧
      0 ≤ q.index ∧ q.neo_file_type = index_transform q.index.toNat := by
  have hs := load_start_file sys romsets path romset st attrs hpath hin
  generalize hu : attrs.any (fun a => strcasecmp_zero a.name "index".toList) = u at hs
  have hc : attrs.countP (fun a =>
      strcasecmp_zero a.name (if u then "index".toList else "type".toList)) ≤ 1 := by
    cases u with
    | true => exact hidx
    | false => exact htyp
  have htab := foldl_file_attribute_table sys u attrs
    { st with file_offset := 0, file_size := 0, file_type := NEO_FILE_RAW, file_index := 0 }
    hc rfl
  have hin2 := foldl_file_attribute_in_correct sys u attrs
    { st with file_offset := 0, file_size := 0, file_type := NEO_FILE_RAW, file_index := 0 }
  generalize attrs.foldl (load_file_attribute sys u)
    { st with file_offset := 0, file_size := 0, file_type := NEO_FILE_RAW, file_index := 0 }
    = s at hs htab hin2
  have he := load_end_file sys romsets path romset
    { s with in_file := true, file_cnt := s.file_cnt + 1 } attrs hpath
    (by show s.in_correct_romset = true; rw [hin2]; exact hin) rfl
  refine ⟨{ s with in_file := false, file_cnt := s.file_cnt + 1 },
    ⟨path, s.file_name, s.file_type, s.file_index, s.file_offset, s.file_size,
      load_file_expand { s with in_file := true, file_cnt := s.file_cnt + 1 }⟩, ?_, ?_, ?_⟩
  · show run_sax _ (XMLEvent.START_NODE ⟨"file".toList, attrs⟩ ::
      [XMLEvent.END_NODE ⟨"file".toList, attrs⟩]) st = _
    rw [run_sax_cons_continue _ _ _ _ _ _ hs, run_sax_cons_continue _ _ _ _ _ _ he]
    rfl
  · exact Int.natCast_nonneg _
  · exact htab

/-- C9, the failing input: in a matching part-list the element
`<file name="a.bin" index="15" index="4"/>` is handed to `neogeo_tx` with
index 4 and the sprite transform, while `<file name="b.bin" index="4"/>` is
handed over with index 4 and the raw transform the table gives. -/
theorem repeated_index_keeps_transform :
    (run_sax (xml_load_files sample_sys false (some "games/demo".toList))
        (romset_events []
          [[⟨"name".toList, "a.bin".toList⟩, ⟨"index".toList, "15".toList⟩,
            ⟨"index".toList, "4".toList⟩],
           [⟨"name".toList, "b.bin".toList⟩, ⟨"index".toList, "4".toList⟩]])
        LoadState.init).map
      (fun r => (tx_requests r.2.1).map (fun q => (q.name, q.neo_file_type, q.index))) =
      some [("a.bin".toList, NEO_FILE_SPR, 4), ("b.bin".toList, NEO_FILE_RAW, 4)] ∧
    index_transform 4 = NEO_FILE_RAW := by
  refine ⟨by decide, by decide⟩
/-! ## General memory-window transfer -/

theorem rom_windows_append (a b : List Effect) :
    rom_windows (a ++ b) = rom_windows a ++ rom_windows b := by
  simp [rom_windows, List.filterMap_append]

theorem rom_windows_progress (c : Prop) [Decidable c] (name : CStr) (p : Int) :
    rom_windows (if c then [Effect.osd_progress name p] else []) = [] := by
  split <;> rfl

/-- Support for C11: every window of the loop of `load_rom_to_mem` requests
`min(remainf, 1 MiB)` bytes from the file, whatever was requested in the
windows before it and whatever the size of the window. -/
theorem load_rom_loop_requests (sys : Sys) (name : CStr) (type : neo_file_type)
    (size remainf fuel : Nat) :
    ∀ (remain map_addr : Nat) (progress : Int),
      ∀ w ∈ rom_windows
          (load_rom_loop sys name type size remainf fuel remain map_addr progress).2,
        w.2.2 = (if remainf > MiB then MiB else remainf) := by
  induction fuel with
  | zero => intro _ _ _ w hw; cases hw
  | succ n ih =>
    intro remain map_addr progress
    unfold load_rom_loop
    by_cases h0 : remain = 0
    · rw [if_pos h0]; intro w hw; cases hw
    · rw [if_neg h0]
      by_cases hm : sys.mmap_ok map_addr (if remain > MiB then MiB else remain) = false
      · simp only [hm, if_true]; intro w hw; cases hw
      · have hm' : sys.mmap_ok map_addr (if remain > MiB then MiB else remain) = true := by
          simpa using hm
        simp only [hm', Bool.true_eq_false, if_false]
        generalize ((PROGRESS_MAX : Int) -
          (((remain - (if remain > MiB then MiB else remain)) * PROGRESS_MAX / size : Nat)
            : Int)) = np
        intro w hw
        have hw2 : w ∈ (map_addr, (if remain > MiB then MiB else remain),
            (if remainf > MiB then MiB else remainf)) ::
            rom_windows ((if progress ≠ np then [Effect.osd_progress name np] else []) ++
              (load_rom_loop sys name type size remainf n
                (remain - (if remain > MiB then MiB else remain))
                ((map_addr + (if remain > MiB then MiB else remain)) % 2 ^ 32) np).2) := hw
        rw [rom_windows_append, rom_windows_progress, List.nil_append] at hw2
        rcases List.mem_cons.1 hw2 with rfl | h
        · rfl
        · exact ih _ _ _ w h

/-- C11, the failing inputs.  A part of 1.5 MiB loaded without expansion:
the second window maps 512 KiB, 512 KiB of the part are left, and 1 MiB is
requested from the file.  A part of 100 bytes expanded to 2 MiB: both
windows request 100 bytes, 200 in all. -/
theorem load_rom_to_mem_requests_exceed :
    rom_windows (load_rom_to_mem { sample_sys with FileOpen := fun _ => some 1572864 }
      "roms".toList "p1".toList NEO_FILE_RAW 4 0 0 0).2 =
      [(0x38000000, 1048576, 1048576), (0x38100000, 524288, 1048576)] ∧
    rom_windows (load_rom_to_mem sample_sys "roms".toList "v1".toList NEO_FILE_RAW 16 0 0
      (2 * 1024 * 1024)).2 =
      [(0x30000000, 1048576, 100), (0x30100000, 1048576, 100)] := by
  refine ⟨by decide, by decide⟩

/-! ## Graphics memory-window transfer -/

theorem crom_windows_append (a b : List Effect) :
    crom_windows (a ++ b) = crom_windows a ++ crom_windows b := by
  simp [crom_windows, List.filterMap_append]

theorem crom_windows_progress (c : Prop) [Decidable c] (name : CStr) (p : Int) :
    crom_windows (if c then [Effect.osd_progress name p] else []) = [] := by
  split <;> rfl

theorem load_crom_loop_windows (sys : Sys) (name : CStr) (size : Nat)
    (hmap : ∀ a p, sys.mmap_ok a p = true) (fuel : Nat) :
    ∀ (remain addr : Nat) (progress : Int), remain ≤ fuel → remain % 2 = 0 → addr < 2 ^ 32 →
      ∃ es, load_crom_loop sys name size fuel remain addr progress =
          (some ((addr + remain) % 2 ^ 32), es) ∧
        ((crom_windows es).map (fun w => w.2.1)).sum = remain ∧
        (∀ w ∈ crom_windows es, 0 < w.2.1 ∧ w.2.1 ≤ MiB ∧ 2 * w.2.2 = w.2.1) ∧
        (∀ w ∈ (crom_windows es).head?, w.1 = addr) ∧
        List.Chain' (fun a b => b.1 = (a.1 + a.2.1) % 2 ^ 32) (crom_windows es) := by
  induction fuel with
  | zero =>
    intro remain addr progress h1 _ h3
    have h0 : remain = 0 := by omega
    subst h0
    refine ⟨[], ?_, rfl, ?_, ?_, List.chain'_nil⟩
    · show (some addr, []) = _
      rw [Nat.add_zero, Nat.mod_eq_of_lt h3]
    · intro w hw; cases hw
    · intro w hw; cases hw
  | succ n ih =>
    intro remain addr progress h1 h2 h3
    by_cases h0 : remain = 0
    · subst h0
      refine ⟨[], ?_, rfl, ?_, ?_, List.chain'_nil⟩
      · unfold load_crom_loop
        rw [if_pos rfl, Nat.add_zero, Nat.mod_eq_of_lt h3]
      · intro w hw; cases hw
      · intro w hw; cases hw
    · have hp0 : 0 < (if remain > MiB then MiB else remain) := by
        unfold MiB; split_ifs <;> omega
      have hp1 : (if remain > MiB then MiB else remain) ≤ MiB := by
        split_ifs <;> omega
      have hp2 : (if remain > MiB then MiB else remain) ≤ remain := by
        split_ifs <;> omega
      have hp3 : (if remain > MiB then MiB else remain) % 2 = 0 := by
        unfold MiB; split_ifs <;> omega
      generalize hps : (if remain > MiB then MiB else remain) = partsz at hp0 hp1 hp2 hp3
      generalize hnp : ((PROGRESS_MAX : Int) -
        (((remain - partsz) * PROGRESS_MAX / size : Nat) : Int)) = np
      obtain ⟨es, e1, e2, e3, e4, e5⟩ := ih (remain - partsz) ((addr + partsz) % 2 ^ 32) np
        (by omega) (by omega) (Nat.mod_lt _ (by decide))
      have hw : crom_windows (Effect.crom_window addr partsz (partsz / 2) ::
          ((if progress ≠ np then [Effect.osd_progress name np] else []) ++ es)) =
          (addr, partsz, partsz / 2) :: crom_windows es := by
        show (addr, partsz, partsz / 2) :: crom_windows (_ ++ es) = _
        rw [crom_windows_append, crom_windows_progress, List.nil_append]
      refine ⟨Effect.crom_window addr partsz (partsz / 2) ::
          ((if progress ≠ np then [Effect.osd_progress name np] else []) ++ es),
        ?_, ?_, ?_, ?_, ?_⟩
      · unfold load_crom_loop
        rw [if_neg h0]
        simp only [hps, hnp, hmap, Bool.true_eq_false, if_false, e1]
        congr 2
        rw [Nat.mod_add_mod]
        congr 1
        omega
      · rw [hw, List.map_cons, List.sum_cons, e2]
        show partsz + (remain - partsz) = remain
        omega
      · rw [hw]
        intro w hwm
        rcases List.mem_cons.1 hwm with rfl | hwm
        · exact ⟨hp0, hp1, by show 2 * (partsz / 2) = partsz; omega⟩
        · exact e3 w hwm
      · rw [hw]
        intro w hwm
        simp only [List.head?_cons, Option.mem_def, Option.some.injEq] at hwm
        rw [← hwm]
      · rw [hw, List.chain'_cons']
        refine ⟨?_, e5⟩
        intro y hy
        exact e4 y hy

theorem crom_first_map_addr (index : Nat) (h1 : 64 ≤ index) (h2 : index ≤ 127) :
    to_uint32 (0x38000000 + (((index : Int) - 64) / 2) * 1024 * 1024) =
      0x38000000 + (index - 64) / 2 * MiB := by
  unfold to_uint32 MiB
  omega

theorem crom_return_value (base S : Nat) :
    to_uint32 ((((0x38000000 + base + 2 * S) % 2 ^ 32 : Nat) : Int) - 0x38000000) =
      (base + 2 * S) % 2 ^ 32 := by
  unfold to_uint32
  omega

/-- C12 (amended): for an index in `[64, 127]` and a resolved part size `S`
with `0 < S < 2^31`, when `/dev/mem` opens and every window maps,
`load_crom_to_mem` runs its loop to the end: the window sizes sum to `2 * S`,
every window is at most 1 MiB and reads half its size from the file, the
first window is mapped at `0x38000000 + ((index - 64) div 2) * 1 MiB` and
every next window starts where the one before ended (in 32-bit arithmetic).
The value returned is the end offset of the part in the graphics region,
`(((index - 64) div 2) * 1 MiB + 2 * S) mod 2^32`; it is `2 * S` for the
indices 64 and 65. -/
theorem load_crom_to_mem_windows (sys : Sys) (path name : CStr)
    (index offset size F S : Nat)
    (hopen : sys.FileOpen (path_join path name) = some F)
    (hS : resolve_size F offset size = S) (hpos : 0 < S) (hlt : S < 2 ^ 31)
    (h64 : 64 ≤ index) (h127 : index ≤ 127)
    (hdev : sys.dev_mem = true) (hmap : ∀ a p, sys.mmap_ok a p = true) :
    ∃ es,
      load_crom_to_mem sys path name index offset size =
        (((index - 64) / 2 * MiB + 2 * S) % 2 ^ 32, es) ∧
      ((crom_windows es).map (fun w => w.2.1)).sum = 2 * S ∧
      (∀ w ∈ crom_windows es, 0 < w.2.1 ∧ w.2.1 ≤ MiB ∧ 2 * w.2.2 = w.2.1) ∧
      (∀ w ∈ (crom_windows es).head?, w.1 = 0x38000000 + (index - 64) / 2 * MiB) ∧
      List.Chain' (fun a b => b.1 = (a.1 + a.2.1) % 2 ^ 32) (crom_windows es) ∧
      (index = 64 ∨ index = 65 → ((index - 64) / 2 * MiB + 2 * S) % 2 ^ 32 = 2 * S) ∧
      (∀ (c : Nat) (t : neo_file_type) (e : Nat),
        (neogeo_tx sys c ⟨path, name, t, (index : Int), offset, size, e⟩).2.1 =
          max c (((index - 64) / 2 * MiB + 2 * S) % 2 ^ 32)) := by
  have hsz : S * 2 % 2 ^ 32 = 2 * S := by omega
  have haddr : 0x38000000 + (index - 64) / 2 * MiB < 2 ^ 32 := by
    unfold MiB; omega
  obtain ⟨es, e1, e2, e3, e4, e5⟩ := load_crom_loop_windows sys name (2 * S) hmap (2 * S)
    (2 * S) (0x38000000 + (index - 64) / 2 * MiB) (-1) (le_refl _) (by omega) haddr
  have hret : load_crom_to_mem sys path name index offset size =
      (((index - 64) / 2 * MiB + 2 * S) % 2 ^ 32, es) := by
    unfold load_crom_to_mem
    have hS0 : S ≠ 0 := by omega
    simp only [hopen, hS, hS0, if_false, hdev, Bool.true_eq_false, hsz,
      crom_first_map_addr index h64 h127, e1]
    congr 1
    have := crom_return_value ((index - 64) / 2 * MiB) S
    rw [← this]
  refine ⟨es, hret, e2, e3, e4, e5, ?_, ?_⟩
  · intro h
    have hz : (index - 64) / 2 = 0 := by omega
    rw [hz, Nat.zero_mul, Nat.zero_add]
    omega
  · intro c t e
    have hi : to_int8 (index : Int) = (index : Int) := by
      unfold to_int8; omega
    have h := (neogeo_tx_extended sys c ⟨path, name, t, (index : Int), offset, size, e⟩
      (by show 64 ≤ to_int8 (index : Int); rw [hi]; omega)).1
    rw [h]
    unfold crom_size
    show max c (load_crom_to_mem sys path name (to_int8 (index : Int)).toNat offset size).1 = _
    rw [hi, Int.toNat_ofNat, hret]

/-- Witness of C12 (amended): index 66 and a file of 100 bytes in the sample
environment; one window of 200 bytes at `0x38100000`, end offset
`1 MiB + 200`. -/
theorem load_crom_to_mem_windows_witness :
    ∃ es,
      load_crom_to_mem sample_sys "roms".toList "c3".toList 66 0 0 =
        (((66 - 64) / 2 * MiB + 2 * 100) % 2 ^ 32, es) ∧
      ((crom_windows es).map (fun w => w.2.1)).sum = 2 * 100 := by
  have h := load_crom_to_mem_windows sample_sys "roms".toList "c3".toList 66 0 0 100 100
    (by decide) (by decide) (by decide) (by decide) (by decide) (by decide) (by decide)
    (fun _ _ => rfl)
  obtain ⟨es, h1, h2, _⟩ := h
  exact ⟨es, h1, h2⟩

/-- C12 as stated fails: for index 66 and a part of 100 bytes the value
returned is `1 MiB + 200`, not `2 * 100`. -/
theorem load_crom_to_mem_returns_end_offset :
    sample_sys.FileOpen (path_join "roms".toList "c3".toList) = some 100 ∧
    resolve_size 100 0 0 = 100 ∧
    (load_crom_to_mem sample_sys "roms".toList "c3".toList 66 0 0).1 = 1024 * 1024 + 200 ∧
    crom_windows (load_crom_to_mem sample_sys "roms".toList "c3".toList 66 0 0).2 =
      [(0x38100000, 200, 100)] := by
  refine ⟨by decide, by decide, by decide, by decide⟩

/-! ## Agreement of the two passes on the part-list -/

theorem load_romset_attribute_other (sys : Sys) (romset : CStr) (st : LoadState)
    (a : XMLAttribute) (h : strcasecmp_zero a.name "name".toList = false) :
    (load_romset_attribute sys true romset st a).in_correct_romset = st.in_correct_romset := by
  unfold load_romset_attribute
  rw [h]
  simp only [Bool.false_eq_true, and_false, if_false]
  split_ifs <;> rfl

theorem load_romset_attribute_name (sys : Sys) (romset : CStr) (st : LoadState)
    (a : XMLAttribute) (h : strcasecmp_zero a.name "name".toList = true) :
    (load_romset_attribute sys true romset st a).in_correct_romset =
      (has_name a.value romset != 0) := by
  unfold load_romset_attribute
  rw [h]
  simp only [and_self, if_true]
  by_cases hn : has_name a.value romset = 0
  · simp [hn]
  · simp [hn]

theorem foldl_romset_attribute_other (sys : Sys) (romset : CStr) (attrs : List XMLAttribute) :
    ∀ st : LoadState, (∀ x ∈ attrs, strcasecmp_zero x.name "name".toList = false) →
      (attrs.foldl (load_romset_attribute sys true romset) st).in_correct_romset =
        st.in_correct_romset := by
  induction attrs with
  | nil => intro st _; rfl
  | cons a t ih =>
    intro st h
    rw [List.foldl_cons, ih _ (fun x hx => h x (List.mem_cons_of_mem a hx)),
      load_romset_attribute_other sys romset st a (h a (List.mem_cons_self a t))]

theorem load_start_romset_state (sys : Sys) (path romset : CStr) (st : LoadState)
    (attrs : List XMLAttribute) (hpath : strrchr_after '/' path = some romset) :
    xml_load_files sys true (some path) st (XMLEvent.START_NODE ⟨"romset".toList, attrs⟩) =
      some (true, attrs.foldl (load_romset_attribute sys true romset)
        { st with file_cnt := 0, vromb_offset := 0, vrom_mirror := 1, use_pcm := 1,
                  hw_type := 0 }, []) := by
  have e1 : strcasecmp_zero "romset".toList "romset".toList = true := by decide
  have e2 : strcasecmp_zero "romset".toList "file".toList = false := by decide
  simp only [xml_load_files, hpath, e1, e2]
  simp

/-- Support for C13: inside a `romsets` root, a `romset` element whose first
attribute is its only `name` attribute is matching for the validation pass
exactly when it is matching for the execution pass. -/
theorem passes_agree_name_first (sys : Sys) (path romset : CStr) (sc : CheckState)
    (sl : LoadState) (a : XMLAttribute) (rest : List XMLAttribute)
    (hpath : strrchr_after '/' path = some romset) (hr : sc.romsets = true)
    (hname : strcasecmp_zero a.name "name".toList = true)
    (hrest : ∀ x ∈ rest, strcasecmp_zero x.name "name".toList = false) :
    ∃ c l,
      xml_check_files sys (some path) sc
        (XMLEvent.START_NODE ⟨"romset".toList, a :: rest⟩) = some (true, c, []) ∧
      xml_load_files sys true (some path) sl
        (XMLEvent.START_NODE ⟨"romset".toList, a :: rest⟩) = some (true, l, []) ∧
      c.in_correct_romset = l.in_correct_romset := by
  refine ⟨_, _, check_start_romset sys path romset sc (a :: rest) hpath (fun _ => by simp),
    load_start_romset_state sys path romset sl (a :: rest) hpath, ?_⟩
  rw [List.foldl_cons, foldl_romset_attribute_other sys romset rest _ hrest,
    load_romset_attribute_name sys romset _ a hname, hr]
  rfl

/-- C13, the failing inputs, for the target `demo` inside a `romsets` root.
The element `<romset hw="1" name="demo">` is not matching for the validation
pass, which checks none of its files and ends with `checked_ok` false, and
is matching for the execution pass, which loads its file.  The element
`<romset altname="demo" name="other">` is matching for the validation pass,
which checks its file and ends with `checked_ok` true, and not for the
execution pass, which loads nothing. -/
theorem passes_disagree_on_part_list :
    ((run_sax (xml_check_files sample_sys (some "games/demo".toList))
        (romsets_events [([⟨"hw".toList, "1".toList⟩, ⟨"name".toList, "demo".toList⟩],
          [[⟨"name".toList, "a.bin".toList⟩]])]) ⟨false, false, false⟩).map
        (fun r => (r.1.checked_ok, existence_checks r.2.1)) = some (false, []) ∧
      (run_sax (xml_load_files sample_sys true (some "games/demo".toList))
        (romsets_events [([⟨"hw".toList, "1".toList⟩, ⟨"name".toList, "demo".toList⟩],
          [[⟨"name".toList, "a.bin".toList⟩]])]) LoadState.init).map
        (fun r => (tx_requests r.2.1).map (fun q => q.name)) = some ["a.bin".toList]) ∧
    ((run_sax (xml_check_files sample_sys (some "games/demo".toList))
        (romsets_events [([⟨"altname".toList, "demo".toList⟩,
          ⟨"name".toList, "other".toList⟩], [[⟨"name".toList, "a.bin".toList⟩]])])
        ⟨false, false, false⟩).map
        (fun r => (r.1.checked_ok, existence_checks r.2.1)) =
          some (true, ["games/demo/a.bin".toList]) ∧
      (run_sax (xml_load_files sample_sys true (some "games/demo".toList))
        (romsets_events [([⟨"altname".toList, "demo".toList⟩,
          ⟨"name".toList, "other".toList⟩], [[⟨"name".toList, "a.bin".toList⟩]])])
        LoadState.init).map
        (fun r => (tx_requests r.2.1).map (fun q => q.name)) = some []) := by
  refine ⟨⟨by decide, by decide⟩, ⟨by decide, by decide⟩⟩

end NeoGeo
